import Mathlib

/-!
Verification development for the Clash-meta-agent repository.

The Phase 0 meta-dataset workflow (src/workflows/meta_workflow.py) and the
meta analytics wrapper (src/analytics/meta_analytics.py) are shallowly
embedded below.  Python strings are modelled as Lean strings; the Python
string methods strip and lower that the code applies to category keys are
modelled by pyStripStr and pyLowerStr (ASCII lowering, Python whitespace).
Python dicts built by comprehensions are modelled as association lists with
insert-or-overwrite semantics (pyDict / insertKV) and get-with-default
lookup (lookupD), which matches dict insertion order and last-write-wins
behaviour of a Python dict comprehension.
-/

namespace ClashMeta

/-- Model of the Python whitespace test used by str.strip (ASCII whitespace). -/
def pyIsSpace (c : Char) : Bool :=
  c.toNat == 32 || c.toNat == 9 || c.toNat == 10 || c.toNat == 13 ||
    c.toNat == 11 || c.toNat == 12

theorem char_toNat_ofNat (n : Nat) (h : n < 55296) : (Char.ofNat n).toNat = n := by
  have hv : n.isValidChar := Or.inl h
  simp [Char.ofNat, hv, Char.ofNatAux, Char.toNat, UInt32.toNat]

theorem charToLower_of_upper (c : Char) (h : c.toNat ≥ 65 ∧ c.toNat ≤ 90) :
    Char.toLower c = Char.ofNat (c.toNat + 32) := by
  simp only [Char.toLower]
  rw [if_pos h]

theorem charToLower_of_other (c : Char) (h : ¬(c.toNat ≥ 65 ∧ c.toNat ≤ 90)) :
    Char.toLower c = c := by
  simp only [Char.toLower]
  rw [if_neg h]

/-- Python str.lower is modelled per character by the basic-latin lowering
Char.toLower; the category labels handled by the program are basic latin. -/
theorem charToLower_idem (c : Char) :
    Char.toLower (Char.toLower c) = Char.toLower c := by
  by_cases h : c.toNat ≥ 65 ∧ c.toNat ≤ 90
  · have h2 : (Char.ofNat (c.toNat + 32)).toNat = c.toNat + 32 :=
      char_toNat_ofNat _ (by omega)
    rw [charToLower_of_upper c h, charToLower_of_other _ (by rw [h2]; omega)]
  · rw [charToLower_of_other c h, charToLower_of_other c h]

theorem pyIsSpace_false_of_ge (c : Char) (h : 65 ≤ c.toNat) : pyIsSpace c = false := by
  simp only [pyIsSpace, Bool.or_eq_false_iff, beq_eq_false_iff_ne, ne_eq]
  omega

theorem charToLower_isSpace (c : Char) :
    pyIsSpace (Char.toLower c) = pyIsSpace c := by
  by_cases h : c.toNat ≥ 65 ∧ c.toNat ≤ 90
  · have h2 : (Char.ofNat (c.toNat + 32)).toNat = c.toNat + 32 :=
      char_toNat_ofNat _ (by omega)
    rw [charToLower_of_upper c h, pyIsSpace_false_of_ge _ (by rw [h2]; omega),
      pyIsSpace_false_of_ge _ (by omega)]
  · rw [charToLower_of_other c h]

/-- Model of Python str.lower. -/
def pyLowerStr (s : String) : String := String.mk (s.data.map Char.toLower)

/-- Strip leading and trailing whitespace from a character list. -/
def stripL (l : List Char) : List Char :=
  ((l.dropWhile pyIsSpace).reverse.dropWhile pyIsSpace).reverse

/-- Model of Python str.strip (no arguments). -/
def pyStripStr (s : String) : String := String.mk (stripL s.data)

/-- The normalized (trimmed then lowercased) form of a category key. -/
def normKey (s : String) : String := pyLowerStr (pyStripStr s)

theorem dropWhile_idem (p : Char → Bool) (l : List Char) :
    (l.dropWhile p).dropWhile p = l.dropWhile p := by
  induction l with
  | nil => rfl
  | cons x xs ih =>
      cases hp : p x <;> simp [List.dropWhile_cons, hp, ih]

theorem dropWhile_head_false (p : Char → Bool) :
    ∀ (l : List Char) (a : Char) (t : List Char), l.dropWhile p = a :: t → p a = false := by
  intro l
  induction l with
  | nil => intro a t h; simp [List.dropWhile] at h
  | cons x xs ih =>
      intro a t h
      cases hp : p x with
      | true => exact ih a t (by simpa [List.dropWhile_cons, hp] using h)
      | false =>
          simp only [List.dropWhile_cons, hp, if_neg, Bool.false_eq_true,
            reduceIte] at h
          rcases h with ⟨rfl, rfl⟩
          exact hp

theorem stripL_map_toLower (l : List Char) :
    stripL (l.map Char.toLower) = (stripL l).map Char.toLower := by
  have hp : (pyIsSpace ∘ Char.toLower) = pyIsSpace := funext charToLower_isSpace
  unfold stripL
  simp only [List.dropWhile_map, hp, ← List.map_reverse]

theorem stripL_idem (l : List Char) : stripL (stripL l) = stripL l := by
  set a := l.dropWhile pyIsSpace with ha
  set b := a.reverse.dropWhile pyIsSpace with hbdef
  have hstrip : stripL l = b.reverse := rfl
  have key : b.reverse.dropWhile pyIsSpace = b.reverse := by
    cases hc : b.reverse with
    | nil => simp
    | cons c t =>
        have hbne : b ≠ [] := by
          intro h0
          rw [h0] at hc
          simp at hc
        have hgl : b.getLast? = some c := by
          rw [List.getLast?_eq_head?_reverse, hc]
          rfl
        have hsuf : b <:+ a.reverse := by
          rw [hbdef]
          exact List.dropWhile_suffix pyIsSpace
        obtain ⟨u, hu⟩ := hsuf
        have h1 : a.reverse.getLast? = some c := by
          rw [← hu, List.getLast?_append, hgl]
          rfl
        have hhead : a.head? = some c := by
          have := @List.getLast?_eq_head?_reverse _ a.reverse
          rw [List.reverse_reverse] at this
          rw [← this, h1]
        have hws : pyIsSpace c = false := by
          cases hae : a with
          | nil =>
              rw [hae] at hhead
              simp at hhead
          | cons c0 t0 =>
              rw [hae] at hhead
              simp at hhead
              subst hhead
              exact dropWhile_head_false pyIsSpace l c0 t0 (by rw [← ha, hae])
        rw [List.dropWhile_cons, hws]
        simp
  have hbfix : b.dropWhile pyIsSpace = b := by
    rw [hbdef]
    exact dropWhile_idem pyIsSpace a.reverse
  rw [hstrip]
  unfold stripL
  rw [key, List.reverse_reverse, hbfix]

theorem pyStrip_idem (s : String) : pyStripStr (pyStripStr s) = pyStripStr s :=
  congrArg String.mk (stripL_idem s.data)

theorem pyLower_idem (s : String) : pyLowerStr (pyLowerStr s) = pyLowerStr s := by
  unfold pyLowerStr
  refine congrArg String.mk ?_
  show (s.data.map Char.toLower).map Char.toLower = s.data.map Char.toLower
  rw [List.map_map]
  exact List.map_congr_left (fun c _ => charToLower_idem c)

theorem strip_lower_comm (s : String) :
    pyStripStr (pyLowerStr s) = pyLowerStr (pyStripStr s) :=
  congrArg String.mk (stripL_map_toLower s.data)

theorem pyStrip_normKey (s : String) : pyStripStr (normKey s) = normKey s := by
  unfold normKey
  rw [strip_lower_comm, pyStrip_idem]

theorem pyLower_normKey (s : String) : pyLowerStr (normKey s) = normKey s := by
  unfold normKey
  rw [← strip_lower_comm, ← strip_lower_comm]
  rw [pyLower_idem]

/-! ### Python dict model

A Python dict is modelled as an association list in insertion order.
insertKV models a single key assignment (overwrite in place when present,
append otherwise); pyDict models a dict comprehension whose keys are
obtained by applying f to the input keys; lookupD models dict.get(k, d). -/

def insertKV (m : List (String × Int)) (k : String) (v : Int) : List (String × Int) :=
  if m.any (fun kv => kv.1 == k) then
    m.map (fun kv => if kv.1 == k then (k, v) else kv)
  else m ++ [(k, v)]

def lookupD (m : List (String × Int)) (k : String) (d : Int) : Int :=
  match m.find? (fun kv => kv.1 == k) with
  | some kv => kv.2
  | none => d

def pyDict (f : String → String) (l : List (String × Int)) : List (String × Int) :=
  l.foldl (fun m kv => insertKV m (f kv.1) kv.2) []

theorem insertKV_fresh (m : List (String × Int)) (k : String) (v : Int)
    (h : ∀ kv ∈ m, kv.1 ≠ k) : insertKV m k v = m ++ [(k, v)] := by
  unfold insertKV
  have hneg : (m.any fun kv => kv.1 == k) = false := by
    rw [List.any_eq_false]
    intro kv hmem
    simpa using h kv hmem
  rw [hneg]
  simp

/-! ### Data model (src/workflows/meta_workflow.py)

MetaState embeds the MetaState TypedDict.  A missing stop_decision key is
modelled as the empty string and a missing meta_analytics key as the empty
Analytics record, matching the state.get defaults used by every node.
Players are modelled by the only field the workflow reads, the optional
"tag" entry (a missing tag and an empty tag are both falsy in Python).
Match records are opaque to the workflow apart from the opponent-side
category used by the analytics layer. -/

structure Player where
  tag : Option String
deriving DecidableEq

structure Record where
  oppCategory : String
deriving DecidableEq

/-- The part of the compute_user_analytics output that the meta pipeline
reads: summary.games_played (if present) and the opp_deck_types rows, one
(type, games) pair per row. -/
structure UAOut where
  gamesPlayed? : Option Int
  oppDeckTypes : List (String × Int)

/-- The part of the meta_analytics dict that check_enough_battles_node
reads: games_total (if present) and deck_type_counts_opp; oppDeckTypes
carries the opp_deck_types rows through the dict. -/
structure Analytics where
  gamesTotal? : Option Int
  deckCountsOpp : List (String × Int)
  oppDeckTypes : List (String × Int)
deriving DecidableEq

structure MetaState where
  topPlayers : List Player
  selectedPlayers : List Player
  usedPlayerIndices : Finset ℕ
  fetchedPlayerTags : Finset String
  metaRawBattles : List Record
  normalizedBattles : List Record
  metaAnalytics : Analytics
  isBalanced : Bool
  loopCount : ℕ
  stopDecision : String
  notes : List String
deriving DecidableEq

def MIN_TOTAL_BATTLES : Int := 500

def MIN_GAMES_PER_TYPE : Int := 50

def REQUIRED_DECK_TYPES_LOWER : List String :=
  ["siege", "bait", "cycle", "bridge spam", "beatdown"]

/-! ### Node embeddings

Randomness (random.sample) is modelled by an oracle samp : pool to chosen
indices; SampOK below states the contract of random.sample.  Network
retrieval plus normalization (get_player_battlelog followed by
filter_and_normalize_ranked_1v1, both inside the try block) is modelled by
an oracle retrieve returning Except, and the external
compute_user_analytics by an oracle ua.  The sampling and fetch nodes also
return a ghost output (the sampled index list, resp. the list of tags for
which a retrieval call was issued) used only to state theorems. -/

def fetchTopPlayersNode (top : List Player) (st : MetaState) : MetaState :=
  {
    topPlayers := top,
    selectedPlayers := [],
    usedPlayerIndices := ∅,
    fetchedPlayerTags := ∅,
    metaRawBattles := [],
    normalizedBattles := [],
    metaAnalytics := ⟨none, [], []⟩,
    isBalanced := false,
    loopCount := 0,
    stopDecision := "",
    notes := st.notes ++ ["Fetched " ++ toString top.length ++ " top players from API"] }

def sampleInitial50Node (samp : List ℕ → ℕ → List ℕ) (st : MetaState) :
    List ℕ × MetaState :=
  let top := st.topPlayers
  if top.isEmpty then
    ([], { st with
           selectedPlayers := [],
           notes := st.notes ++ ["sample_initial_50: WARNING – top_players is empty."] })
  else
    let allIndices := List.range top.length
    let sampleSize := min 50 allIndices.length
    let sampledIndices := samp allIndices sampleSize
    let selectedPlayers := sampledIndices.map (fun i => top.getD i ⟨none⟩)
    let usedIndices := st.usedPlayerIndices ∪ sampledIndices.toFinset
    (sampledIndices,
      { st with
        selectedPlayers := selectedPlayers,
        usedPlayerIndices := usedIndices,
        notes := st.notes ++ ["sample_initial_50: sampled " ++
          toString selectedPlayers.length ++ " players out of " ++
          toString top.length ++ "."] })

/-- The unused population indices of a state: the list comprehension
[i for i in all_indices if i not in used_indices] of sample_more_5_node. -/
def unusedIndicesOf (st : MetaState) : List ℕ :=
  (List.range st.topPlayers.length).filter (fun i => decide (i ∉ st.usedPlayerIndices))

def sampleMore5Node (samp : List ℕ → ℕ → List ℕ) (st : MetaState) :
    List ℕ × MetaState :=
  let top := st.topPlayers
  let usedIndices := st.usedPlayerIndices
  if top.isEmpty then
    ([], { st with
           selectedPlayers := [],
           notes := st.notes ++ ["sample_more_5: WARNING – top_players is empty."] })
  else
    let unusedIndices := unusedIndicesOf st
    if unusedIndices.isEmpty then
      ([], { st with
             selectedPlayers := [],
             usedPlayerIndices := usedIndices,
             notes := st.notes ++ ["sample_more_5: no unused players left; cannot sample more."] })
    else
      let sampleSize := min 5 unusedIndices.length
      let newIndices := samp unusedIndices sampleSize
      let selectedPlayers := newIndices.map (fun i => top.getD i ⟨none⟩)
      let usedIndices2 := usedIndices ∪ newIndices.toFinset
      let loopCount2 := st.loopCount + 1
      (newIndices,
        { st with
          selectedPlayers := selectedPlayers,
          usedPlayerIndices := usedIndices2,
          loopCount := loopCount2,
          notes := st.notes ++ ["sample_more_5: loop " ++ toString loopCount2 ++
            " – sampled " ++ toString selectedPlayers.length ++
            " more players; total_used=" ++ toString usedIndices2.card ++
            "/" ++ toString top.length ++ "."] })

structure FetchAcc where
  metaRaw : List Record
  fetched : Finset String
  notes : List String
  newBattleCount : ℕ
  newPlayerCount : ℕ
  invoked : List String
deriving DecidableEq

/-- One iteration of the loop body of fetch_meta_battles_node.  The Python
try/except around the retrieval is modelled by matching on the Except value
of the retrieve oracle: the error branch only appends the audit note, so no
failure ever escapes the node. -/
def processPlayer (retrieve : String → Except String (List Record))
    (acc : FetchAcc) (player : Player) : FetchAcc :=
  match player.tag with
  | none => acc
  | some tag =>
    if tag = "" then acc
    else if tag ∈ acc.fetched then acc
    else
      match retrieve tag with
      | Except.ok normalized =>
          let takeN := min normalized.length 10
          let recentRanked := normalized.take takeN
          { acc with
            metaRaw := acc.metaRaw ++ recentRanked,
            newBattleCount := acc.newBattleCount + recentRanked.length,
            newPlayerCount := acc.newPlayerCount + 1,
            fetched := insert tag acc.fetched,
            invoked := acc.invoked ++ [tag] }
      | Except.error e =>
          { acc with
            notes := acc.notes ++
              ["fetch_meta_battles: error fetching " ++ tag ++ ": " ++ e],
            invoked := acc.invoked ++ [tag] }

def fetchMetaBattlesNode (retrieve : String → Except String (List Record))
    (st : MetaState) : List String × MetaState :=
  if st.selectedPlayers.isEmpty then
    ([], { st with
           metaRawBattles := st.metaRawBattles,
           normalizedBattles := st.metaRawBattles,
           fetchedPlayerTags := st.fetchedPlayerTags,
           notes := st.notes ++ ["fetch_meta_battles: no selected_players; nothing to fetch."] })
  else
    let acc0 : FetchAcc := ⟨st.metaRawBattles, st.fetchedPlayerTags, st.notes, 0, 0, []⟩
    let acc := st.selectedPlayers.foldl (processPlayer retrieve) acc0
    (acc.invoked,
      { st with
        metaRawBattles := acc.metaRaw,
        normalizedBattles := acc.metaRaw,
        fetchedPlayerTags := acc.fetched,
        notes := acc.notes ++ ["fetch_meta_battles: fetched " ++
          toString acc.newBattleCount ++ " normalized ranked 1v1 battles from " ++
          toString acc.newPlayerCount ++ " new players. total_meta_battles=" ++
          toString acc.metaRaw.length] })

/-- compute_meta_analytics (src/analytics/meta_analytics.py) around the
external compute_user_analytics oracle ua. -/
def computeMetaAnalytics (ua : List Record → UAOut) (battlesNormalized : List Record) :
    Analytics :=
  let u := ua battlesNormalized
  let gamesTotal : Int := u.gamesPlayed?.getD (battlesNormalized.length : Int)
  let deckTypeCountsOpp := pyDict pyStripStr u.oppDeckTypes
  {
    gamesTotal? := some gamesTotal,
    deckCountsOpp := deckTypeCountsOpp,
    oppDeckTypes := u.oppDeckTypes }

def computeMetaAnalyticsNode (ua : List Record → UAOut) (st : MetaState) : MetaState :=
  let battles := st.metaRawBattles
  let analytics := computeMetaAnalytics ua battles
  { st with
    metaAnalytics := analytics,
    notes := st.notes ++ ["compute_meta_analytics: games_total=" ++
      toString (analytics.gamesTotal?.getD (battles.length : Int)) ++
      ", deck_types_opp=" ++ toString analytics.oppDeckTypes.length] }

/-- The lowercased deck-count dict built inside check_enough_battles_node. -/
def deckCountsLowerOf (raw : List (String × Int)) : List (String × Int) :=
  pyDict pyLowerStr raw

/-- The games_total local of check_enough_battles_node:
int(meta.get("games_total", len(state.get("meta_raw_battles", [])))). -/
def resolvedGamesTotal (st : MetaState) : Int :=
  st.metaAnalytics.gamesTotal?.getD (st.metaRawBattles.length : Int)

/-- The insufficient_types mapping built by check_enough_battles_node from
the lowercased deck counts. -/
def insufficientTypesOf (st : MetaState) : List (String × Int) :=
  REQUIRED_DECK_TYPES_LOWER.filterMap (fun t =>
    let count := lookupD (deckCountsLowerOf st.metaAnalytics.deckCountsOpp) t 0
    if count < MIN_GAMES_PER_TYPE then some (t, count) else none)

/-- The remaining local of check_enough_battles_node:
max(0, len(top_players) - len(used_indices)), which is natural subtraction. -/
def remainingOf (st : MetaState) : ℕ :=
  st.topPlayers.length - st.usedPlayerIndices.card

/-- The branch structure of check_enough_battles_node, shared by the three
fields it sets (decision, is_balanced flag and appended audit note). -/
def checkDecisionOf (st : MetaState) : String :=
  if resolvedGamesTotal st ≥ MIN_TOTAL_BATTLES ∧ (insufficientTypesOf st).length = 0
  then "enough"
  else if remainingOf st ≤ 0 ∨ st.loopCount ≥ 20 then "stop"
  else "need_more"

def checkIsBalancedOf (st : MetaState) : Bool :=
  if resolvedGamesTotal st ≥ MIN_TOTAL_BATTLES ∧ (insufficientTypesOf st).length = 0
  then true
  else false

def checkNoteOf (st : MetaState) : String :=
  if resolvedGamesTotal st ≥ MIN_TOTAL_BATTLES ∧ (insufficientTypesOf st).length = 0
  then "check_enough_battles: enough data. games_total=" ++
    toString (resolvedGamesTotal st) ++ ", all required deck types >= " ++
    toString MIN_GAMES_PER_TYPE ++ "."
  else if remainingOf st ≤ 0 ∨ st.loopCount ≥ 20 then
    "check_enough_battles: stopping. games_total=" ++
      toString (resolvedGamesTotal st) ++ ", remaining_players=" ++
      toString (remainingOf st) ++ ", loop_count=" ++ toString st.loopCount ++
      ", insufficient_types=" ++ toString (insufficientTypesOf st) ++ "."
  else
    "check_enough_battles: need more data. games_total=" ++
      toString (resolvedGamesTotal st) ++ ", remaining_players=" ++
      toString (remainingOf st) ++ ", loop_count=" ++ toString st.loopCount ++
      ", insufficient_types=" ++ toString (insufficientTypesOf st) ++ "."

def checkEnoughBattlesNode (st : MetaState) : MetaState :=
  { st with
    isBalanced := checkIsBalancedOf st,
    stopDecision := checkDecisionOf st,
    notes := st.notes ++ [checkNoteOf st] }

def routeAfterCheckEnough (st : MetaState) : String :=
  let decision := st.stopDecision
  if decision = "enough" ∨ decision = "need_more" ∨ decision = "stop" then decision
  else "stop"

/-! ### Run model

A run of the compiled graph: fetch_top_players, sample_initial_50, then
fetch, analytics, check, and while the conditional edge routes to
need_more, another sample_more_5 / fetch / analytics / check cycle.
metaRun k is the state after evaluation number k+1, together with the
ghost traces: the list of index lists returned by the sampling calls so
far and the concatenated list of tags for which a retrieval call was
issued so far. -/

/-- Contract of random.sample(pool, k) for a duplicate-free pool: the
result is duplicate-free, drawn from the pool, and of length k whenever
k does not exceed the pool size. -/
def SampOK (samp : List ℕ → ℕ → List ℕ) : Prop :=
  ∀ pool k, pool.Nodup →
    (samp pool k).Nodup ∧ (∀ i ∈ samp pool k, i ∈ pool) ∧
      (k ≤ pool.length → (samp pool k).length = k)

def emptyMetaState : MetaState :=
  ⟨[], [], ∅, ∅, [], [], ⟨none, [], []⟩, false, 0, "", []⟩

structure RunAcc where
  st : MetaState
  idxTrace : List (List ℕ)
  invTrace : List String

def runInit (samp : List ℕ → ℕ → List ℕ) (ua : List Record → UAOut)
    (retrieve : String → Except String (List Record)) (top : List Player) : RunAcc :=
  let s0 := fetchTopPlayersNode top emptyMetaState
  let r1 := sampleInitial50Node samp s0
  let r2 := fetchMetaBattlesNode retrieve r1.2
  let s3 := computeMetaAnalyticsNode ua r2.2
  let s4 := checkEnoughBattlesNode s3
  ⟨s4, [r1.1], r2.1⟩

def runStep (samp : List ℕ → ℕ → List ℕ) (ua : List Record → UAOut)
    (retrieve : String → Except String (List Record)) (acc : RunAcc) : RunAcc :=
  if routeAfterCheckEnough acc.st = "need_more" then
    let r1 := sampleMore5Node samp acc.st
    let r2 := fetchMetaBattlesNode retrieve r1.2
    let s3 := computeMetaAnalyticsNode ua r2.2
    let s4 := checkEnoughBattlesNode s3
    ⟨s4, acc.idxTrace ++ [r1.1], acc.invTrace ++ r2.1⟩
  else acc

def metaRun (samp : List ℕ → ℕ → List ℕ) (ua : List Record → UAOut)
    (retrieve : String → Except String (List Record)) (top : List Player) :
    ℕ → RunAcc
  | 0 => runInit samp ua retrieve top
  | k + 1 => runStep samp ua retrieve (metaRun samp ua retrieve top k)

/-! ### Stopping decision (claim C1) -/

/-- The number of unused population indices of a state. -/
def unusedCountOf (st : MetaState) : ℕ :=
  (Finset.range st.topPlayers.length \ st.usedPlayerIndices).card

theorem insufficientTypes_len_zero_iff (st : MetaState) :
    (insufficientTypesOf st).length = 0 ↔
      ∀ t ∈ REQUIRED_DECK_TYPES_LOWER,
        lookupD (deckCountsLowerOf st.metaAnalytics.deckCountsOpp) t 0 ≥
          MIN_GAMES_PER_TYPE := by
  rw [List.length_eq_zero]
  unfold insufficientTypesOf
  rw [List.filterMap_eq_nil_iff]
  constructor
  · intro h t ht
    have h2 := h t ht
    by_contra hlt
    push_neg at hlt
    rw [if_pos hlt] at h2
    exact Option.noConfusion h2
  · intro h t ht
    have h2 := h t ht
    show (if lookupD (deckCountsLowerOf st.metaAnalytics.deckCountsOpp) t 0 <
        MIN_GAMES_PER_TYPE then some (t, _) else none) = none
    rw [if_neg (not_lt.mpr h2)]

theorem unusedCount_eq_remaining (st : MetaState)
    (hsub : st.usedPlayerIndices ⊆ Finset.range st.topPlayers.length) :
    unusedCountOf st = remainingOf st := by
  unfold unusedCountOf remainingOf
  rw [Finset.card_sdiff hsub, Finset.card_range]

/-- C1: the stopping decision is enough iff the total threshold and every
mandatory deck type threshold hold (an absent type counting as 0);
otherwise need_more iff unused population remains and the loop budget is
not spent; otherwise stop; and is_balanced holds iff the decision is
enough. -/
theorem claim1_decision_correctness (st : MetaState)
    (hsub : st.usedPlayerIndices ⊆ Finset.range st.topPlayers.length) :
    ((checkEnoughBattlesNode st).stopDecision = "enough" ↔
      (resolvedGamesTotal st ≥ MIN_TOTAL_BATTLES ∧
        ∀ t ∈ REQUIRED_DECK_TYPES_LOWER,
          lookupD (deckCountsLowerOf st.metaAnalytics.deckCountsOpp) t 0 ≥
            MIN_GAMES_PER_TYPE)) ∧
    ((checkEnoughBattlesNode st).stopDecision = "need_more" ↔
      (¬(resolvedGamesTotal st ≥ MIN_TOTAL_BATTLES ∧
          ∀ t ∈ REQUIRED_DECK_TYPES_LOWER,
            lookupD (deckCountsLowerOf st.metaAnalytics.deckCountsOpp) t 0 ≥
              MIN_GAMES_PER_TYPE) ∧
        0 < unusedCountOf st ∧ st.loopCount < 20)) ∧
    ((checkEnoughBattlesNode st).stopDecision = "stop" ↔
      (¬(resolvedGamesTotal st ≥ MIN_TOTAL_BATTLES ∧
          ∀ t ∈ REQUIRED_DECK_TYPES_LOWER,
            lookupD (deckCountsLowerOf st.metaAnalytics.deckCountsOpp) t 0 ≥
              MIN_GAMES_PER_TYPE) ∧
        ¬(0 < unusedCountOf st ∧ st.loopCount < 20))) ∧
    ((checkEnoughBattlesNode st).isBalanced = true ↔
      (checkEnoughBattlesNode st).stopDecision = "enough") := by
  have hdec : (checkEnoughBattlesNode st).stopDecision = checkDecisionOf st := rfl
  have hbal : (checkEnoughBattlesNode st).isBalanced = checkIsBalancedOf st := rfl
  have hr := unusedCount_eq_remaining st hsub
  have hiff := insufficientTypes_len_zero_iff st
  rw [hdec, hbal]
  unfold checkDecisionOf checkIsBalancedOf
  by_cases hE : resolvedGamesTotal st ≥ MIN_TOTAL_BATTLES ∧
      (insufficientTypesOf st).length = 0
  · rw [if_pos hE, if_pos hE]
    have hE2 : resolvedGamesTotal st ≥ MIN_TOTAL_BATTLES ∧
        ∀ t ∈ REQUIRED_DECK_TYPES_LOWER,
          lookupD (deckCountsLowerOf st.metaAnalytics.deckCountsOpp) t 0 ≥
            MIN_GAMES_PER_TYPE := ⟨hE.1, hiff.mp hE.2⟩
    exact ⟨iff_of_true rfl hE2,
      iff_of_false (by decide) (fun h => h.1 hE2),
      iff_of_false (by decide) (fun h => h.1 hE2),
      iff_of_true rfl rfl⟩
  · rw [if_neg hE, if_neg hE]
    have hE2 : ¬(resolvedGamesTotal st ≥ MIN_TOTAL_BATTLES ∧
        ∀ t ∈ REQUIRED_DECK_TYPES_LOWER,
          lookupD (deckCountsLowerOf st.metaAnalytics.deckCountsOpp) t 0 ≥
            MIN_GAMES_PER_TYPE) := by
      intro hc
      exact hE ⟨hc.1, hiff.mpr hc.2⟩
    by_cases hD : remainingOf st ≤ 0 ∨ st.loopCount ≥ 20
    · rw [if_pos hD]
      have hnd : ¬(0 < unusedCountOf st ∧ st.loopCount < 20) := by
        rw [hr]
        omega
      exact ⟨iff_of_false (by decide) hE2,
        iff_of_false (by decide) (fun h => hnd h.2),
        iff_of_true rfl ⟨hE2, hnd⟩,
        iff_of_false (by simp) (by decide)⟩
    · rw [if_neg hD]
      push_neg at hD
      have hd2 : 0 < unusedCountOf st ∧ st.loopCount < 20 := by
        rw [hr]
        omega
      exact ⟨iff_of_false (by decide) hE2,
        iff_of_true rfl ⟨hE2, hd2⟩,
        iff_of_false (by decide) (fun h => h.2 hd2),
        iff_of_false (by simp) (by decide)⟩

theorem claim1_decision_correctness_witness :
    emptyMetaState.usedPlayerIndices ⊆ Finset.range emptyMetaState.topPlayers.length ∧
    (checkEnoughBattlesNode emptyMetaState).stopDecision = "stop" := by
  have h := claim1_decision_correctness emptyMetaState (by decide)
  exact ⟨by decide, h.2.2.1.mpr ⟨by decide, by decide⟩⟩

/-! ### Routing (claim C10) -/

/-- C10: after the evaluation step the router returns one of exactly
enough, need_more or stop, and on a missing, empty or unrecognized
stop_decision it returns stop. -/
theorem claim10_route_total (st : MetaState) :
    (routeAfterCheckEnough st = "enough" ∨ routeAfterCheckEnough st = "need_more" ∨
      routeAfterCheckEnough st = "stop") ∧
    (st.stopDecision ≠ "enough" → st.stopDecision ≠ "need_more" →
      st.stopDecision ≠ "stop" → routeAfterCheckEnough st = "stop") := by
  unfold routeAfterCheckEnough
  by_cases h : st.stopDecision = "enough" ∨ st.stopDecision = "need_more" ∨
      st.stopDecision = "stop"
  · rw [if_pos h]
    exact ⟨h, fun h1 h2 h3 => absurd h (by tauto)⟩
  · rw [if_neg h]
    exact ⟨Or.inr (Or.inr rfl), fun h1 h2 h3 => rfl⟩

def garbledState : MetaState := { emptyMetaState with stopDecision := "???" }

theorem claim10_route_total_witness :
    (routeAfterCheckEnough garbledState = "enough" ∨
      routeAfterCheckEnough garbledState = "need_more" ∨
      routeAfterCheckEnough garbledState = "stop") ∧
    routeAfterCheckEnough garbledState = "stop" := by
  have h := claim10_route_total garbledState
  exact ⟨h.1, h.2 (by decide) (by decide) (by decide)⟩

theorem route_eq_need_more_iff (st : MetaState) :
    routeAfterCheckEnough st = "need_more" ↔ st.stopDecision = "need_more" := by
  unfold routeAfterCheckEnough
  by_cases h : st.stopDecision = "enough" ∨ st.stopDecision = "need_more" ∨
      st.stopDecision = "stop"
  · rw [if_pos h]
  · rw [if_neg h]
    constructor
    · intro hc
      exact absurd hc (by decide)
    · intro hd
      exact absurd (Or.inr (Or.inl hd)) h

/-! ### Fetch step (claims C5, C6, C7) -/

/-- What a player whose tag is fresh contributes to the cohort: the first
min(len, 10) normalized records on success, nothing on failure. -/
def freshContribution (retrieve : String → Except String (List Record))
    (p : Player) : List Record :=
  match p.tag with
  | none => []
  | some t =>
    match retrieve t with
    | Except.ok l => l.take (min l.length 10)
    | Except.error _ => []

/-- The audit note a player whose tag is fresh causes: the error note on
failure, nothing on success. -/
def errNotes (retrieve : String → Except String (List Record))
    (p : Player) : List String :=
  match p.tag with
  | none => []
  | some t =>
    match retrieve t with
    | Except.ok _ => []
    | Except.error e => ["fetch_meta_battles: error fetching " ++ t ++ ": " ++ e]

theorem processPlayer_ok (retrieve : String → Except String (List Record))
    (acc : FetchAcc) (p : Player) (t : String) (l : List Record)
    (htag : p.tag = some t) (hne : t ≠ "") (hfresh : t ∉ acc.fetched)
    (hok : retrieve t = Except.ok l) :
    processPlayer retrieve acc p =
      { acc with
        metaRaw := acc.metaRaw ++ l.take (min l.length 10),
        newBattleCount := acc.newBattleCount + (l.take (min l.length 10)).length,
        newPlayerCount := acc.newPlayerCount + 1,
        fetched := insert t acc.fetched,
        invoked := acc.invoked ++ [t] } := by
  unfold processPlayer
  rw [htag]
  simp only [if_neg hne, if_neg hfresh, hok]

theorem processPlayer_error (retrieve : String → Except String (List Record))
    (acc : FetchAcc) (p : Player) (t : String) (e : String)
    (htag : p.tag = some t) (hne : t ≠ "") (hfresh : t ∉ acc.fetched)
    (herr : retrieve t = Except.error e) :
    processPlayer retrieve acc p =
      { acc with
        notes := acc.notes ++
          ["fetch_meta_battles: error fetching " ++ t ++ ": " ++ e],
        invoked := acc.invoked ++ [t] } := by
  unfold processPlayer
  rw [htag]
  simp only [if_neg hne, if_neg hfresh, herr]

theorem processPlayer_skip (retrieve : String → Except String (List Record))
    (acc : FetchAcc) (p : Player) (t : String)
    (htag : p.tag = some t) (hne : t ≠ "") (hmem : t ∈ acc.fetched) :
    processPlayer retrieve acc p = acc := by
  unfold processPlayer
  rw [htag]
  simp only [if_neg hne, if_pos hmem]

theorem freshContribution_ok (retrieve : String → Except String (List Record))
    (p : Player) (t : String) (l : List Record)
    (htag : p.tag = some t) (hok : retrieve t = Except.ok l) :
    freshContribution retrieve p = l.take (min l.length 10) := by
  unfold freshContribution
  rw [htag]
  show (match retrieve t with
    | Except.ok l => l.take (min l.length 10)
    | Except.error _ => ([] : List Record)) = l.take (min l.length 10)
  rw [hok]

theorem freshContribution_error (retrieve : String → Except String (List Record))
    (p : Player) (t : String) (e : String)
    (htag : p.tag = some t) (herr : retrieve t = Except.error e) :
    freshContribution retrieve p = [] := by
  unfold freshContribution
  rw [htag]
  show (match retrieve t with
    | Except.ok l => l.take (min l.length 10)
    | Except.error _ => ([] : List Record)) = []
  rw [herr]

theorem errNotes_ok (retrieve : String → Except String (List Record))
    (p : Player) (t : String) (l : List Record)
    (htag : p.tag = some t) (hok : retrieve t = Except.ok l) :
    errNotes retrieve p = [] := by
  unfold errNotes
  rw [htag]
  show (match retrieve t with
    | Except.ok _ => ([] : List String)
    | Except.error e =>
        ["fetch_meta_battles: error fetching " ++ t ++ ": " ++ e]) = []
  rw [hok]

theorem errNotes_error (retrieve : String → Except String (List Record))
    (p : Player) (t : String) (e : String)
    (htag : p.tag = some t) (herr : retrieve t = Except.error e) :
    errNotes retrieve p =
      ["fetch_meta_battles: error fetching " ++ t ++ ": " ++ e] := by
  unfold errNotes
  rw [htag]
  show (match retrieve t with
    | Except.ok _ => ([] : List String)
    | Except.error e2 =>
        ["fetch_meta_battles: error fetching " ++ t ++ ": " ++ e2]) =
      ["fetch_meta_battles: error fetching " ++ t ++ ": " ++ e]
  rw [herr]

theorem fold_process_spec (retrieve : String → Except String (List Record)) :
    ∀ (batch : List Player) (acc : FetchAcc),
      (∀ q ∈ batch, ∃ tq, q.tag = some tq ∧ tq ≠ "" ∧ tq ∉ acc.fetched) →
      (batch.map Player.tag).Nodup →
      (batch.foldl (processPlayer retrieve) acc).metaRaw =
        acc.metaRaw ++ batch.flatMap (freshContribution retrieve) ∧
      (batch.foldl (processPlayer retrieve) acc).notes =
        acc.notes ++ batch.flatMap (errNotes retrieve) ∧
      (∀ x, x ∈ (batch.foldl (processPlayer retrieve) acc).fetched ↔
        (x ∈ acc.fetched ∨ ∃ q ∈ batch, q.tag = some x ∧
          ∃ l, retrieve x = Except.ok l)) := by
  intro batch
  induction batch with
  | nil =>
      intro acc h1 h2
      refine ⟨by simp, by simp, ?_⟩
      intro x
      simp
  | cons p rest ih =>
      intro acc h1 h2
      obtain ⟨t, htag, hne, hfresh⟩ := h1 p (by simp)
      have hnotag : ∀ q ∈ rest, ∀ tq, q.tag = some tq → tq ≠ t := by
        intro q hq tq htq hcontra
        subst hcontra
        have hmem : p.tag ∈ rest.map Player.tag := by
          rw [htag, ← htq]
          exact List.mem_map_of_mem Player.tag hq
        rw [List.map_cons] at h2
        exact (List.nodup_cons.mp h2).1 hmem
      have h2r : (rest.map Player.tag).Nodup := by
        rw [List.map_cons] at h2
        exact (List.nodup_cons.mp h2).2
      rw [List.foldl_cons]
      cases hr : retrieve t with
      | ok l =>
          have hstep := processPlayer_ok retrieve acc p t l htag hne hfresh hr
          have hfet : (processPlayer retrieve acc p).fetched = insert t acc.fetched := by
            rw [hstep]
          have hmr : (processPlayer retrieve acc p).metaRaw =
              acc.metaRaw ++ l.take (min l.length 10) := by
            rw [hstep]
          have hnt : (processPlayer retrieve acc p).notes = acc.notes := by
            rw [hstep]
          have hrest : ∀ q ∈ rest, ∃ tq, q.tag = some tq ∧ tq ≠ "" ∧
              tq ∉ (processPlayer retrieve acc p).fetched := by
            intro q hq
            obtain ⟨tq, htq, hnq, hfq⟩ := h1 q (List.mem_cons_of_mem p hq)
            refine ⟨tq, htq, hnq, ?_⟩
            rw [hfet]
            intro hmem
            rcases Finset.mem_insert.mp hmem with h | h
            · exact hnotag q hq tq htq h
            · exact hfq h
          obtain ⟨ih1, ih2, ih3⟩ := ih (processPlayer retrieve acc p) hrest h2r
          refine ⟨?_, ?_, ?_⟩
          · rw [ih1, hmr, List.flatMap_cons,
              freshContribution_ok retrieve p t l htag hr, List.append_assoc]
          · rw [ih2, hnt, List.flatMap_cons, errNotes_ok retrieve p t l htag hr]
            simp
          · intro x
            rw [ih3 x, hfet]
            constructor
            · intro hx
              rcases hx with hx | hx
              · rcases Finset.mem_insert.mp hx with hx | hx
                · subst hx
                  exact Or.inr ⟨p, by simp, htag, l, hr⟩
                · exact Or.inl hx
              · obtain ⟨q, hq, hqt, hl⟩ := hx
                exact Or.inr ⟨q, List.mem_cons_of_mem p hq, hqt, hl⟩
            · intro hx
              rcases hx with hx | hx
              · exact Or.inl (Finset.mem_insert_of_mem hx)
              · obtain ⟨q, hq, hqt, hl⟩ := hx
                rcases List.mem_cons.mp hq with rfl | hq
                · rw [htag] at hqt
                  injection hqt with hqt2
                  exact Or.inl (by rw [← hqt2]; exact Finset.mem_insert_self t acc.fetched)
                · exact Or.inr ⟨q, hq, hqt, hl⟩
      | error e =>
          have hstep := processPlayer_error retrieve acc p t e htag hne hfresh hr
          have hfet : (processPlayer retrieve acc p).fetched = acc.fetched := by
            rw [hstep]
          have hmr : (processPlayer retrieve acc p).metaRaw = acc.metaRaw := by
            rw [hstep]
          have hnt : (processPlayer retrieve acc p).notes = acc.notes ++
              ["fetch_meta_battles: error fetching " ++ t ++ ": " ++ e] := by
            rw [hstep]
          have hrest : ∀ q ∈ rest, ∃ tq, q.tag = some tq ∧ tq ≠ "" ∧
              tq ∉ (processPlayer retrieve acc p).fetched := by
            intro q hq
            obtain ⟨tq, htq, hnq, hfq⟩ := h1 q (List.mem_cons_of_mem p hq)
            refine ⟨tq, htq, hnq, ?_⟩
            rw [hfet]
            exact hfq
          obtain ⟨ih1, ih2, ih3⟩ := ih (processPlayer retrieve acc p) hrest h2r
          refine ⟨?_, ?_, ?_⟩
          · rw [ih1, hmr, List.flatMap_cons,
              freshContribution_error retrieve p t e htag hr]
            simp
          · rw [ih2, hnt, List.flatMap_cons, errNotes_error retrieve p t e htag hr,
              List.append_assoc]
          · intro x
            rw [ih3 x, hfet]
            constructor
            · intro hx
              rcases hx with hx | hx
              · exact Or.inl hx
              · obtain ⟨q, hq, hqt, hl⟩ := hx
                exact Or.inr ⟨q, List.mem_cons_of_mem p hq, hqt, hl⟩
            · intro hx
              rcases hx with hx | hx
              · exact Or.inl hx
              · obtain ⟨q, hq, hqt, hl⟩ := hx
                rcases List.mem_cons.mp hq with rfl | hq
                · rw [htag] at hqt
                  injection hqt with hqt2
                  rw [← hqt2] at hl
                  obtain ⟨l, hl⟩ := hl
                  rw [hr] at hl
                  exact Except.noConfusion hl
                · exact Or.inr ⟨q, hq, hqt, hl⟩

def initialFetchAcc (st : MetaState) : FetchAcc :=
  ⟨st.metaRawBattles, st.fetchedPlayerTags, st.notes, 0, 0, []⟩

theorem fetchNode_topPlayers (retrieve : String → Except String (List Record))
    (st : MetaState) :
    (fetchMetaBattlesNode retrieve st).2.topPlayers = st.topPlayers := by
  unfold fetchMetaBattlesNode
  split <;> rfl

theorem fetchNode_used (retrieve : String → Except String (List Record))
    (st : MetaState) :
    (fetchMetaBattlesNode retrieve st).2.usedPlayerIndices =
      st.usedPlayerIndices := by
  unfold fetchMetaBattlesNode
  split <;> rfl

theorem fetchNode_loopCount (retrieve : String → Except String (List Record))
    (st : MetaState) :
    (fetchMetaBattlesNode retrieve st).2.loopCount = st.loopCount := by
  unfold fetchMetaBattlesNode
  split <;> rfl

theorem fetchNode_metaRaw_of_ne (retrieve : String → Except String (List Record))
    (st : MetaState) (h : st.selectedPlayers ≠ []) :
    (fetchMetaBattlesNode retrieve st).2.metaRawBattles =
      (st.selectedPlayers.foldl (processPlayer retrieve) (initialFetchAcc st)).metaRaw := by
  unfold fetchMetaBattlesNode initialFetchAcc
  rw [if_neg (by simp [h])]

theorem fetchNode_fetched_of_ne (retrieve : String → Except String (List Record))
    (st : MetaState) (h : st.selectedPlayers ≠ []) :
    (fetchMetaBattlesNode retrieve st).2.fetchedPlayerTags =
      (st.selectedPlayers.foldl (processPlayer retrieve) (initialFetchAcc st)).fetched := by
  unfold fetchMetaBattlesNode initialFetchAcc
  rw [if_neg (by simp [h])]

theorem fetchNode_notes_of_ne (retrieve : String → Except String (List Record))
    (st : MetaState) (h : st.selectedPlayers ≠ []) :
    (fetchMetaBattlesNode retrieve st).2.notes =
      (st.selectedPlayers.foldl (processPlayer retrieve) (initialFetchAcc st)).notes ++
      ["fetch_meta_battles: fetched " ++
        toString (st.selectedPlayers.foldl (processPlayer retrieve)
          (initialFetchAcc st)).newBattleCount ++
        " normalized ranked 1v1 battles from " ++
        toString (st.selectedPlayers.foldl (processPlayer retrieve)
          (initialFetchAcc st)).newPlayerCount ++
        " new players. total_meta_battles=" ++
        toString (st.selectedPlayers.foldl (processPlayer retrieve)
          (initialFetchAcc st)).metaRaw.length] := by
  unfold fetchMetaBattlesNode initialFetchAcc
  rw [if_neg (by simp [h])]

theorem fetchNode_invoked_of_ne (retrieve : String → Except String (List Record))
    (st : MetaState) (h : st.selectedPlayers ≠ []) :
    (fetchMetaBattlesNode retrieve st).1 =
      (st.selectedPlayers.foldl (processPlayer retrieve) (initialFetchAcc st)).invoked := by
  unfold fetchMetaBattlesNode initialFetchAcc
  rw [if_neg (by simp [h])]

/-- C7: for every selected player whose retrieval succeeds, the fetch loop
body appends to the cohort exactly min(len(normalized), 10) records, the
first ten records of the normalized history, so a single participant adds
at most ten records in that call. -/
theorem claim7_per_player_cap (retrieve : String → Except String (List Record))
    (acc : FetchAcc) (p : Player) (t : String) (l : List Record)
    (htag : p.tag = some t) (hne : t ≠ "") (hfresh : t ∉ acc.fetched)
    (hok : retrieve t = Except.ok l) :
    (processPlayer retrieve acc p).metaRaw =
      acc.metaRaw ++ l.take (min l.length 10) ∧
    (processPlayer retrieve acc p).metaRaw.length =
      acc.metaRaw.length + min l.length 10 ∧
    min l.length 10 ≤ 10 := by
  have h := processPlayer_ok retrieve acc p t l htag hne hfresh hok
  refine ⟨by rw [h], ?_, by omega⟩
  rw [h]
  simp only [List.length_append, List.length_take]
  omega

def wRecords : List Record := List.replicate 12 ⟨"Siege"⟩

def wRetrieve : String → Except String (List Record) := fun t =>
  if t = "T1" then Except.ok wRecords else Except.error "timeout"

def wAcc : FetchAcc := ⟨[], ∅, [], 0, 0, []⟩

theorem claim7_per_player_cap_witness :
    (processPlayer wRetrieve wAcc ⟨some "T1"⟩).metaRaw =
      wAcc.metaRaw ++ wRecords.take (min wRecords.length 10) ∧
    (processPlayer wRetrieve wAcc ⟨some "T1"⟩).metaRaw.length =
      wAcc.metaRaw.length + min wRecords.length 10 ∧
    min wRecords.length 10 ≤ 10 :=
  claim7_per_player_cap wRetrieve wAcc ⟨some "T1"⟩ "T1" wRecords rfl
    (by decide) (by decide) (by simp [wRetrieve])

/-- C5: when retrieval fails for one player of the batch, the fetch step
logs an audit note naming that tag, does not mark the tag fetched, raises
nothing (the node is a total function whose error branch only logs), and
still appends every other player's successful contribution; the cohort
equals the old cohort plus the per-player contributions in batch order,
the failing player contributing nothing. -/
theorem claim5_error_recovery (retrieve : String → Except String (List Record))
    (st : MetaState) (p : Player) (t e : String)
    (hmem : p ∈ st.selectedPlayers)
    (htags : ∀ q ∈ st.selectedPlayers, ∃ tq, q.tag = some tq ∧ tq ≠ "" ∧
      tq ∉ st.fetchedPlayerTags)
    (hnodup : (st.selectedPlayers.map Player.tag).Nodup)
    (htag : p.tag = some t)
    (herr : retrieve t = Except.error e) :
    ("fetch_meta_battles: error fetching " ++ t ++ ": " ++ e) ∈
      (fetchMetaBattlesNode retrieve st).2.notes ∧
    t ∉ (fetchMetaBattlesNode retrieve st).2.fetchedPlayerTags ∧
    (fetchMetaBattlesNode retrieve st).2.metaRawBattles =
      st.metaRawBattles ++
        st.selectedPlayers.flatMap (freshContribution retrieve) ∧
    freshContribution retrieve p = [] ∧
    (∀ q ∈ st.selectedPlayers, ∀ tq lq, q.tag = some tq →
      retrieve tq = Except.ok lq →
      freshContribution retrieve q = lq.take (min lq.length 10)) := by
  have hne : st.selectedPlayers ≠ [] := List.ne_nil_of_mem hmem
  have hspec := fold_process_spec retrieve st.selectedPlayers (initialFetchAcc st)
    (by intro q hq; exact htags q hq) hnodup
  obtain ⟨hmr, hnt, hfet⟩ := hspec
  refine ⟨?_, ?_, ?_, ?_, ?_⟩
  · rw [fetchNode_notes_of_ne retrieve st hne, hnt]
    have hin : ("fetch_meta_battles: error fetching " ++ t ++ ": " ++ e) ∈
        st.selectedPlayers.flatMap (errNotes retrieve) := by
      rw [List.mem_flatMap]
      exact ⟨p, hmem, by rw [errNotes_error retrieve p t e htag herr]; simp⟩
    simp only [initialFetchAcc] at hnt ⊢
    simp [hin]
  · rw [fetchNode_fetched_of_ne retrieve st hne]
    rw [hfet t]
    rintro (hc | hc)
    · obtain ⟨tq, htq, hnq, hfq⟩ := htags p hmem
      rw [htag] at htq
      injection htq with htq2
      rw [← htq2] at hfq
      exact hfq (by simpa [initialFetchAcc] using hc)
    · obtain ⟨q, hq, hqt, l, hl⟩ := hc
      rw [herr] at hl
      exact Except.noConfusion hl
  · rw [fetchNode_metaRaw_of_ne retrieve st hne, hmr]
    rfl
  · exact freshContribution_error retrieve p t e htag herr
  · intro q hq tq lq htq hok
    exact freshContribution_ok retrieve q tq lq htq hok

def wPlayerFail : Player := ⟨some "T2"⟩

def wPlayerOk : Player := ⟨some "T1"⟩

def wBatchState : MetaState :=
  { emptyMetaState with selectedPlayers := [wPlayerOk, wPlayerFail] }

theorem claim5_error_recovery_witness :
    ("fetch_meta_battles: error fetching " ++ "T2" ++ ": " ++ "timeout") ∈
      (fetchMetaBattlesNode wRetrieve wBatchState).2.notes ∧
    "T2" ∉ (fetchMetaBattlesNode wRetrieve wBatchState).2.fetchedPlayerTags ∧
    (fetchMetaBattlesNode wRetrieve wBatchState).2.metaRawBattles =
      wBatchState.metaRawBattles ++
        wBatchState.selectedPlayers.flatMap (freshContribution wRetrieve) ∧
    freshContribution wRetrieve wPlayerFail = [] ∧
    (∀ q ∈ wBatchState.selectedPlayers, ∀ tq lq, q.tag = some tq →
      wRetrieve tq = Except.ok lq →
      freshContribution wRetrieve q = lq.take (min lq.length 10)) :=
  claim5_error_recovery wRetrieve wBatchState wPlayerFail "T2" "timeout"
    (by decide)
    (by
      intro q hq
      fin_cases hq
      · exact ⟨"T1", rfl, by decide, by decide⟩
      · exact ⟨"T2", rfl, by decide, by decide⟩)
    (by decide) rfl (by simp [wRetrieve])

/-! ### Sampling nodes (claims C3, C8) -/

theorem sampleMore5_topPlayers (samp : List ℕ → ℕ → List ℕ) (st : MetaState) :
    (sampleMore5Node samp st).2.topPlayers = st.topPlayers := by
  simp only [sampleMore5Node]
  repeat' split
  all_goals rfl

theorem sampleMore5_metaRaw (samp : List ℕ → ℕ → List ℕ) (st : MetaState) :
    (sampleMore5Node samp st).2.metaRawBattles = st.metaRawBattles := by
  simp only [sampleMore5Node]
  repeat' split
  all_goals rfl

theorem sampleMore5_fetched (samp : List ℕ → ℕ → List ℕ) (st : MetaState) :
    (sampleMore5Node samp st).2.fetchedPlayerTags = st.fetchedPlayerTags := by
  simp only [sampleMore5Node]
  repeat' split
  all_goals rfl

theorem sampleMore5_used (samp : List ℕ → ℕ → List ℕ) (st : MetaState) :
    (sampleMore5Node samp st).2.usedPlayerIndices =
      st.usedPlayerIndices ∪ ((sampleMore5Node samp st).1).toFinset := by
  simp only [sampleMore5Node]
  repeat' split
  all_goals simp

theorem sampleMore5_selected (samp : List ℕ → ℕ → List ℕ) (st : MetaState) :
    (sampleMore5Node samp st).2.selectedPlayers =
      ((sampleMore5Node samp st).1).map (fun i => st.topPlayers.getD i ⟨none⟩) := by
  simp only [sampleMore5Node]
  repeat' split
  all_goals rfl

theorem unusedIndicesOf_nodup (st : MetaState) : (unusedIndicesOf st).Nodup :=
  List.Nodup.filter _ (List.nodup_range _)

theorem unusedIndicesOf_mem (st : MetaState) (i : ℕ) :
    i ∈ unusedIndicesOf st ↔
      i < st.topPlayers.length ∧ i ∉ st.usedPlayerIndices := by
  unfold unusedIndicesOf
  rw [List.mem_filter, List.mem_range]
  simp

theorem sampleMore5_ret (samp : List ℕ → ℕ → List ℕ) (st : MetaState)
    (h : SampOK samp) :
    ((sampleMore5Node samp st).1).Nodup ∧
    ∀ i ∈ (sampleMore5Node samp st).1, i ∈ unusedIndicesOf st := by
  simp only [sampleMore5Node]
  repeat' split
  · simp
  · simp
  · have hc := h (unusedIndicesOf st) (min 5 (unusedIndicesOf st).length)
      (unusedIndicesOf_nodup st)
    exact ⟨hc.1, hc.2.1⟩

theorem sampleMore5_ret_len (samp : List ℕ → ℕ → List ℕ) (st : MetaState)
    (h : SampOK samp) (h1 : ¬st.topPlayers.isEmpty)
    (h2 : ¬(unusedIndicesOf st).isEmpty) :
    ((sampleMore5Node samp st).1).length = min 5 (unusedIndicesOf st).length := by
  simp only [sampleMore5Node]
  repeat' split
  · rename_i hcond
    exact absurd hcond h1
  · exact (h (unusedIndicesOf st) (min 5 (unusedIndicesOf st).length)
      (unusedIndicesOf_nodup st)).2.2 (Nat.min_le_right 5 _)

theorem sampleMore5_loopCount_incr (samp : List ℕ → ℕ → List ℕ) (st : MetaState)
    (h1 : ¬st.topPlayers.isEmpty) (h2 : ¬(unusedIndicesOf st).isEmpty) :
    (sampleMore5Node samp st).2.loopCount = st.loopCount + 1 := by
  simp only [sampleMore5Node]
  repeat' split
  · rename_i hcond
    exact absurd hcond h1
  · rfl

theorem sampleMore5_exhausted (samp : List ℕ → ℕ → List ℕ) (st : MetaState)
    (h2 : unusedIndicesOf st = []) :
    (sampleMore5Node samp st).1 = [] ∧
    (sampleMore5Node samp st).2.selectedPlayers = [] ∧
    (sampleMore5Node samp st).2.usedPlayerIndices = st.usedPlayerIndices ∧
    (sampleMore5Node samp st).2.loopCount = st.loopCount ∧
    ∃ n, (sampleMore5Node samp st).2.notes = st.notes ++ [n] := by
  simp only [sampleMore5Node]
  repeat' split
  · exact ⟨rfl, rfl, rfl, rfl, _, rfl⟩
  · exact ⟨rfl, rfl, rfl, rfl, _, rfl⟩
  · rename_i hcond
    exact absurd (by rw [h2]; rfl) hcond

/-- C8: with no unused population index left, sample_more_5 returns an
empty selection plus an audit note and leaves the used set unchanged
(raising nothing: the node is a total function); with unused indices left
it returns min(5, unused) players drawn from unused indices only. -/
theorem claim8_sample_more_exhaustion (samp : List ℕ → ℕ → List ℕ)
    (st : MetaState) (h : SampOK samp) :
    (unusedIndicesOf st = [] →
      (sampleMore5Node samp st).2.selectedPlayers = [] ∧
      (sampleMore5Node samp st).2.usedPlayerIndices = st.usedPlayerIndices ∧
      ∃ n, (sampleMore5Node samp st).2.notes = st.notes ++ [n]) ∧
    (unusedIndicesOf st ≠ [] →
      (sampleMore5Node samp st).2.selectedPlayers.length =
        min 5 (unusedIndicesOf st).length ∧
      ∀ q ∈ (sampleMore5Node samp st).2.selectedPlayers,
        ∃ i ∈ unusedIndicesOf st, q = st.topPlayers.getD i ⟨none⟩) := by
  constructor
  · intro h2
    obtain ⟨e1, e2, e3, e4, e5⟩ := sampleMore5_exhausted samp st h2
    exact ⟨e2, e3, e5⟩
  · intro h2
    have h1 : ¬st.topPlayers.isEmpty := by
      intro hc
      have htop : st.topPlayers = [] := by simpa using hc
      apply h2
      unfold unusedIndicesOf
      rw [htop]
      rfl
    have h2b : ¬(unusedIndicesOf st).isEmpty := by simpa using h2
    rw [sampleMore5_selected]
    constructor
    · rw [List.length_map, sampleMore5_ret_len samp st h h1 h2b]
    · intro q hq
      rw [List.mem_map] at hq
      obtain ⟨i, hi, rfl⟩ := hq
      exact ⟨i, (sampleMore5_ret samp st h).2 i hi, rfl⟩

def takeSamp : List ℕ → ℕ → List ℕ := fun pool k => pool.take k

theorem sampOK_take : SampOK takeSamp := by
  intro pool k hnd
  refine ⟨List.Nodup.sublist (List.take_sublist k pool) hnd, ?_, ?_⟩
  · intro i hi
    exact List.take_subset k pool hi
  · intro hk
    show (pool.take k).length = k
    rw [List.length_take]
    omega

def wSampleState : MetaState :=
  { emptyMetaState with
    topPlayers := [⟨some "T1"⟩, ⟨some "T2"⟩, ⟨some "T3"⟩],
    usedPlayerIndices := {0} }

theorem claim8_sample_more_exhaustion_witness :
    SampOK takeSamp ∧
    ((unusedIndicesOf wSampleState = [] →
      (sampleMore5Node takeSamp wSampleState).2.selectedPlayers = [] ∧
      (sampleMore5Node takeSamp wSampleState).2.usedPlayerIndices =
        wSampleState.usedPlayerIndices ∧
      ∃ n, (sampleMore5Node takeSamp wSampleState).2.notes =
        wSampleState.notes ++ [n]) ∧
    (unusedIndicesOf wSampleState ≠ [] →
      (sampleMore5Node takeSamp wSampleState).2.selectedPlayers.length =
        min 5 (unusedIndicesOf wSampleState).length ∧
      ∀ q ∈ (sampleMore5Node takeSamp wSampleState).2.selectedPlayers,
        ∃ i ∈ unusedIndicesOf wSampleState,
          q = wSampleState.topPlayers.getD i ⟨none⟩)) :=
  ⟨sampOK_take, claim8_sample_more_exhaustion takeSamp wSampleState sampOK_take⟩

/-! ### Category counting (claim C2) -/

theorem pyDict_aux (f : String → String) :
    ∀ (l acc : List (String × Int)),
      (∀ kv ∈ l, f kv.1 = kv.1) →
      ((acc ++ l).map Prod.fst).Nodup →
      l.foldl (fun m kv => insertKV m (f kv.1) kv.2) acc = acc ++ l := by
  intro l
  induction l with
  | nil =>
      intro acc hf hnd
      simp
  | cons kv t ih =>
      intro acc hf hnd
      have hfkv : f kv.1 = kv.1 := hf kv (by simp)
      have hfresh : ∀ kv2 ∈ acc, kv2.1 ≠ kv.1 := by
        intro kv2 h2 hc
        rw [List.map_append, List.nodup_append] at hnd
        obtain ⟨hn1, hn2, hdisj⟩ := hnd
        have hm1 : kv.1 ∈ List.map Prod.fst acc := by
          rw [← hc]
          exact List.mem_map_of_mem Prod.fst h2
        have hm2 : kv.1 ∈ List.map Prod.fst (kv :: t) := by simp
        exact hdisj hm1 hm2
      rw [List.foldl_cons, hfkv, insertKV_fresh acc kv.1 kv.2 hfresh]
      have hstep : acc ++ [(kv.1, kv.2)] = acc ++ [kv] := by
        simp
      rw [hstep, ih (acc ++ [kv]) (fun kv2 h2 => hf kv2 (List.mem_cons_of_mem kv h2))
        (by rw [List.append_assoc]; exact hnd)]
      simp

theorem pyDict_id (f : String → String) (l : List (String × Int))
    (hf : ∀ kv ∈ l, f kv.1 = kv.1) (hnd : (l.map Prod.fst).Nodup) :
    pyDict f l = l := by
  unfold pyDict
  exact pyDict_aux f l [] hf (by simpa using hnd)

theorem find_map_keys (keys : List String) (g : String → Int) (k0 : String) :
    (keys.map (fun k => (k, g k))).find? (fun kv => kv.1 == k0) =
      if k0 ∈ keys then some (k0, g k0) else none := by
  induction keys with
  | nil => simp
  | cons k ks ih =>
      by_cases hk : k = k0
      · subst hk
        simp
      · rw [List.map_cons, List.find?_cons_of_neg, ih]
        · by_cases hmem : k0 ∈ ks
          · rw [if_pos hmem, if_pos (List.mem_cons_of_mem k hmem)]
          · rw [if_neg hmem,
              if_neg (fun hc => (List.mem_cons.mp hc).elim (fun h1 => hk h1.symm) hmem)]
        · simp [hk]

/-- Modelled from the spec: compute_user_analytics
(src/analytics/user_analytics.py is not part of src/).  Spec section 4.3:
the category key is derived from each record's opponent-side category,
normalized by trimming whitespace and lowercasing before counting, so
that case variants merge into one bucket.  Its opp_deck_types rows are
therefore one row per normalized opponent category, with games equal to
the number of cohort records in that bucket; summary.games_played is the
cohort size. -/
def oppDeckTypeRowsSpec (battles : List Record) : List (String × Int) :=
  ((battles.map (fun r => normKey r.oppCategory)).dedup).map
    (fun k => (k, (battles.countP (fun r => normKey r.oppCategory == k) : Int)))

/-- Modelled from the spec: the compute_user_analytics oracle built from
oppDeckTypeRowsSpec. -/
def userAnalyticsSpec : List Record → UAOut := fun battles =>
  ⟨some (battles.length : Int), oppDeckTypeRowsSpec battles⟩

theorem rows_keys_normalized (battles : List Record) :
    ∀ kv ∈ oppDeckTypeRowsSpec battles, ∃ c, kv.1 = normKey c := by
  intro kv hkv
  unfold oppDeckTypeRowsSpec at hkv
  rw [List.mem_map] at hkv
  obtain ⟨k, hk, rfl⟩ := hkv
  have : k ∈ battles.map (fun r => normKey r.oppCategory) := List.mem_dedup.mp hk
  rw [List.mem_map] at this
  obtain ⟨r, hr, rfl⟩ := this
  exact ⟨r.oppCategory, rfl⟩

theorem rows_keys_nodup (battles : List Record) :
    ((oppDeckTypeRowsSpec battles).map Prod.fst).Nodup := by
  unfold oppDeckTypeRowsSpec
  rw [List.map_map]
  have : (Prod.fst ∘ fun k =>
      (k, (battles.countP (fun r => normKey r.oppCategory == k) : Int))) = id := by
    funext k
    rfl
  rw [this, List.map_id]
  exact List.nodup_dedup _

/-- C2: the per-category count used by the stopping decision merges case
variants: looking up any trimmed-and-lowercased category key in the
lowercased deck-count dict gives exactly the number of cohort records
whose opponent-side category equals that key up to surrounding whitespace
and letter case.  compute_user_analytics is not under src/ and its rows
are spec-modelled (oppDeckTypeRowsSpec). -/
theorem claim2_category_merge (battles : List Record) (c : String) :
    lookupD (deckCountsLowerOf
        (computeMetaAnalytics userAnalyticsSpec battles).deckCountsOpp)
      (normKey c) 0 =
      (battles.countP (fun r => normKey r.oppCategory == normKey c) : Int) := by
  have hrows := rows_keys_normalized battles
  have hnd := rows_keys_nodup battles
  have h1 : (computeMetaAnalytics userAnalyticsSpec battles).deckCountsOpp =
      pyDict pyStripStr (oppDeckTypeRowsSpec battles) := rfl
  have h2 : pyDict pyStripStr (oppDeckTypeRowsSpec battles) =
      oppDeckTypeRowsSpec battles := by
    refine pyDict_id pyStripStr _ ?_ hnd
    intro kv hkv
    obtain ⟨c0, hc0⟩ := hrows kv hkv
    rw [hc0]
    exact pyStrip_normKey c0
  have h3 : deckCountsLowerOf (oppDeckTypeRowsSpec battles) =
      oppDeckTypeRowsSpec battles := by
    unfold deckCountsLowerOf
    refine pyDict_id pyLowerStr _ ?_ hnd
    intro kv hkv
    obtain ⟨c0, hc0⟩ := hrows kv hkv
    rw [hc0]
    exact pyLower_normKey c0
  rw [h1, h2, h3]
  unfold lookupD oppDeckTypeRowsSpec
  rw [find_map_keys]
  by_cases hmem : normKey c ∈ (battles.map (fun r => normKey r.oppCategory)).dedup
  · rw [if_pos hmem]
  · rw [if_neg hmem]
    have hzero : battles.countP (fun r => normKey r.oppCategory == normKey c) = 0 := by
      rw [List.countP_eq_zero]
      intro r hr hc
      apply hmem
      rw [List.mem_dedup, List.mem_map]
      exact ⟨r, hr, by simpa using hc⟩
    rw [hzero]
    rfl

/-! ### Run-model infrastructure (claims C3, C4, C6, C9) -/

theorem checkNode_topPlayers (st : MetaState) :
    (checkEnoughBattlesNode st).topPlayers = st.topPlayers := rfl

theorem checkNode_used (st : MetaState) :
    (checkEnoughBattlesNode st).usedPlayerIndices = st.usedPlayerIndices := rfl

theorem checkNode_loopCount (st : MetaState) :
    (checkEnoughBattlesNode st).loopCount = st.loopCount := rfl

theorem checkNode_metaRaw (st : MetaState) :
    (checkEnoughBattlesNode st).metaRawBattles = st.metaRawBattles := rfl

theorem checkNode_stopDecision (st : MetaState) :
    (checkEnoughBattlesNode st).stopDecision = checkDecisionOf st := rfl

theorem analyticsNode_topPlayers (ua : List Record → UAOut) (st : MetaState) :
    (computeMetaAnalyticsNode ua st).topPlayers = st.topPlayers := rfl

theorem analyticsNode_used (ua : List Record → UAOut) (st : MetaState) :
    (computeMetaAnalyticsNode ua st).usedPlayerIndices = st.usedPlayerIndices := rfl

theorem analyticsNode_loopCount (ua : List Record → UAOut) (st : MetaState) :
    (computeMetaAnalyticsNode ua st).loopCount = st.loopCount := rfl

theorem analyticsNode_metaRaw (ua : List Record → UAOut) (st : MetaState) :
    (computeMetaAnalyticsNode ua st).metaRawBattles = st.metaRawBattles := rfl

theorem sampleInitial50_topPlayers (samp : List ℕ → ℕ → List ℕ) (st : MetaState) :
    (sampleInitial50Node samp st).2.topPlayers = st.topPlayers := by
  simp only [sampleInitial50Node]
  repeat' split
  all_goals rfl

theorem sampleInitial50_metaRaw (samp : List ℕ → ℕ → List ℕ) (st : MetaState) :
    (sampleInitial50Node samp st).2.metaRawBattles = st.metaRawBattles := by
  simp only [sampleInitial50Node]
  repeat' split
  all_goals rfl

theorem sampleInitial50_fetched (samp : List ℕ → ℕ → List ℕ) (st : MetaState) :
    (sampleInitial50Node samp st).2.fetchedPlayerTags = st.fetchedPlayerTags := by
  simp only [sampleInitial50Node]
  repeat' split
  all_goals rfl

theorem sampleInitial50_loopCount (samp : List ℕ → ℕ → List ℕ) (st : MetaState) :
    (sampleInitial50Node samp st).2.loopCount = st.loopCount := by
  simp only [sampleInitial50Node]
  repeat' split
  all_goals rfl

theorem sampleInitial50_used (samp : List ℕ → ℕ → List ℕ) (st : MetaState) :
    (sampleInitial50Node samp st).2.usedPlayerIndices =
      st.usedPlayerIndices ∪ ((sampleInitial50Node samp st).1).toFinset := by
  simp only [sampleInitial50Node]
  repeat' split
  all_goals simp

theorem sampleInitial50_selected (samp : List ℕ → ℕ → List ℕ) (st : MetaState) :
    (sampleInitial50Node samp st).2.selectedPlayers =
      ((sampleInitial50Node samp st).1).map (fun i => st.topPlayers.getD i ⟨none⟩) := by
  simp only [sampleInitial50Node]
  repeat' split
  all_goals rfl

theorem sampleInitial50_ret (samp : List ℕ → ℕ → List ℕ) (st : MetaState)
    (h : SampOK samp) :
    ((sampleInitial50Node samp st).1).Nodup ∧
    ∀ i ∈ (sampleInitial50Node samp st).1, i < st.topPlayers.length := by
  simp only [sampleInitial50Node]
  repeat' split
  · simp
  · have hc := h (List.range st.topPlayers.length)
      (min 50 (List.range st.topPlayers.length).length) (List.nodup_range _)
    exact ⟨hc.1, fun i hi => List.mem_range.mp (hc.2.1 i hi)⟩

theorem processPlayer_none (retrieve : String → Except String (List Record))
    (acc : FetchAcc) (p : Player) (h : p.tag = none) :
    processPlayer retrieve acc p = acc := by
  unfold processPlayer
  rw [h]

theorem processPlayer_emptyTag (retrieve : String → Except String (List Record))
    (acc : FetchAcc) (p : Player) (h : p.tag = some "") :
    processPlayer retrieve acc p = acc := by
  unfold processPlayer
  rw [h]
  simp

/-- Case split on one fetch-loop iteration: either the player is skipped
(no retrieval call, accumulator unchanged) or a single retrieval call for
its tag is issued. -/
theorem processPlayer_cases (retrieve : String → Except String (List Record))
    (acc : FetchAcc) (p : Player) :
    processPlayer retrieve acc p = acc ∨
    (∃ t, p.tag = some t ∧ t ≠ "" ∧ t ∉ acc.fetched ∧
      (processPlayer retrieve acc p).invoked = acc.invoked ++ [t] ∧
      (∃ l, (processPlayer retrieve acc p).metaRaw = acc.metaRaw ++ l) ∧
      ((processPlayer retrieve acc p).fetched = insert t acc.fetched ∨
        (processPlayer retrieve acc p).fetched = acc.fetched)) := by
  cases htag : p.tag with
  | none => exact Or.inl (processPlayer_none retrieve acc p htag)
  | some t =>
      by_cases ht : t = ""
      · subst ht
        exact Or.inl (processPlayer_emptyTag retrieve acc p htag)
      · by_cases hm : t ∈ acc.fetched
        · exact Or.inl (processPlayer_skip retrieve acc p t htag ht hm)
        · refine Or.inr ⟨t, rfl, ht, hm, ?_⟩
          cases hr : retrieve t with
          | ok l =>
              have hstep := processPlayer_ok retrieve acc p t l htag ht hm hr
              rw [hstep]
              exact ⟨rfl, ⟨l.take (min l.length 10), rfl⟩, Or.inl rfl⟩
          | error e =>
              have hstep := processPlayer_error retrieve acc p t e htag ht hm hr
              rw [hstep]
              exact ⟨rfl, ⟨[], by simp⟩, Or.inr rfl⟩

/-- One fetch-loop iteration never retrieves an already-fetched tag and
marks a tag fetched exactly when its retrieval and normalization
succeed. -/
theorem processPlayer_fetch_guard (retrieve : String → Except String (List Record))
    (acc : FetchAcc) (p : Player) :
    (∀ t, p.tag = some t → t ≠ "" → t ∈ acc.fetched →
      processPlayer retrieve acc p = acc) ∧
    (∀ x, x ∈ (processPlayer retrieve acc p).fetched ↔
      (x ∈ acc.fetched ∨ (p.tag = some x ∧ x ≠ "" ∧ x ∉ acc.fetched ∧
        ∃ l, retrieve x = Except.ok l))) := by
  refine ⟨fun t htag ht hm => processPlayer_skip retrieve acc p t htag ht hm, ?_⟩
  intro x
  cases htag : p.tag with
  | none =>
      rw [processPlayer_none retrieve acc p htag]
      simp
  | some t =>
      by_cases ht : t = ""
      · subst ht
        rw [processPlayer_emptyTag retrieve acc p htag]
        constructor
        · exact fun hx => Or.inl hx
        · rintro (hx | ⟨hx, hxe, hrest⟩)
          · exact hx
          · injection hx with hx
            exact absurd hx.symm hxe
      · by_cases hm : t ∈ acc.fetched
        · rw [processPlayer_skip retrieve acc p t htag ht hm]
          constructor
          · exact fun hx => Or.inl hx
          · rintro (hx | ⟨hx, hxe, hxm, hrest⟩)
            · exact hx
            · injection hx with hx
              subst hx
              exact absurd hm hxm
        · cases hr : retrieve t with
          | ok l =>
              rw [processPlayer_ok retrieve acc p t l htag ht hm hr]
              show x ∈ insert t acc.fetched ↔ _
              rw [Finset.mem_insert]
              constructor
              · rintro (rfl | hx)
                · exact Or.inr ⟨rfl, ht, hm, l, hr⟩
                · exact Or.inl hx
              · rintro (hx | ⟨hx, hxe, hxm, hl⟩)
                · exact Or.inr hx
                · injection hx with hx
                  exact Or.inl hx.symm
          | error e =>
              rw [processPlayer_error retrieve acc p t e htag ht hm hr]
              show x ∈ acc.fetched ↔ _
              constructor
              · exact fun hx => Or.inl hx
              · rintro (hx | ⟨hx, hxe, hxm, l, hl⟩)
                · exact hx
                · injection hx with hx
                  rw [← hx] at hl
                  rw [hr] at hl
                  exact Except.noConfusion hl

theorem fold_metaRaw_extend (retrieve : String → Except String (List Record)) :
    ∀ (batch : List Player) (acc : FetchAcc),
      ∃ l, (batch.foldl (processPlayer retrieve) acc).metaRaw = acc.metaRaw ++ l := by
  intro batch
  induction batch with
  | nil =>
      intro acc
      exact ⟨[], by simp⟩
  | cons p rest ih =>
      intro acc
      rw [List.foldl_cons]
      obtain ⟨l2, hl2⟩ := ih (processPlayer retrieve acc p)
      rcases processPlayer_cases retrieve acc p with hcase | ⟨t, _, _, _, _, ⟨l1, hl1⟩, _⟩
      · rw [hcase] at hl2 ⊢
        exact ⟨l2, hl2⟩
      · exact ⟨l1 ++ l2, by rw [hl2, hl1, List.append_assoc]⟩

theorem fold_invoked_sublist (retrieve : String → Except String (List Record)) :
    ∀ (batch : List Player) (acc : FetchAcc),
      ∃ extra, (batch.foldl (processPlayer retrieve) acc).invoked =
        acc.invoked ++ extra ∧ List.Sublist extra (batch.filterMap Player.tag) := by
  intro batch
  induction batch with
  | nil =>
      intro acc
      exact ⟨[], by simp, by simp⟩
  | cons p rest ih =>
      intro acc
      rw [List.foldl_cons]
      obtain ⟨extra2, hex2, hsub2⟩ := ih (processPlayer retrieve acc p)
      rcases processPlayer_cases retrieve acc p with hcase | ⟨t, htag, _, _, hinv, _, _⟩
      · rw [hcase] at hex2 ⊢
        refine ⟨extra2, hex2, ?_⟩
        cases htag : p.tag with
        | none =>
            rw [List.filterMap_cons, htag]
            exact hsub2
        | some t2 =>
            rw [List.filterMap_cons, htag]
            exact hsub2.cons t2
      · rw [hinv] at hex2
        refine ⟨t :: extra2, by rw [hex2, List.append_assoc]; rfl, ?_⟩
        rw [List.filterMap_cons, htag]
        exact hsub2.cons₂ t

theorem fetchNode_metaRaw_extend (retrieve : String → Except String (List Record))
    (s : MetaState) :
    ∃ l, (fetchMetaBattlesNode retrieve s).2.metaRawBattles =
      s.metaRawBattles ++ l := by
  unfold fetchMetaBattlesNode
  split
  · exact ⟨[], by simp⟩
  · obtain ⟨l, hl⟩ := fold_metaRaw_extend retrieve s.selectedPlayers
      ⟨s.metaRawBattles, s.fetchedPlayerTags, s.notes, 0, 0, []⟩
    exact ⟨l, hl⟩

theorem runStep_metaRaw_mono (samp : List ℕ → ℕ → List ℕ) (ua : List Record → UAOut)
    (retrieve : String → Except String (List Record)) (acc : RunAcc) :
    acc.st.metaRawBattles.length ≤
      (runStep samp ua retrieve acc).st.metaRawBattles.length := by
  unfold runStep
  split
  · show acc.st.metaRawBattles.length ≤
      (checkEnoughBattlesNode (computeMetaAnalyticsNode ua
        (fetchMetaBattlesNode retrieve (sampleMore5Node samp acc.st).2).2)).metaRawBattles.length
    rw [checkNode_metaRaw, analyticsNode_metaRaw]
    obtain ⟨l, hl⟩ := fetchNode_metaRaw_extend retrieve (sampleMore5Node samp acc.st).2
    rw [hl, sampleMore5_metaRaw]
    simp
  · exact le_refl _

/-- C9: across consecutive loop iterations the accumulated cohort never
shrinks: the fetch step only appends to a copy of meta_raw_battles, and no
other node of the cycle touches it. -/
theorem claim9_monotone_cohort (samp : List ℕ → ℕ → List ℕ)
    (ua : List Record → UAOut)
    (retrieve : String → Except String (List Record)) (top : List Player) (k : ℕ) :
    ((metaRun samp ua retrieve top k).st.metaRawBattles).length ≤
      ((metaRun samp ua retrieve top (k + 1)).st.metaRawBattles).length :=
  runStep_metaRaw_mono samp ua retrieve (metaRun samp ua retrieve top k)

theorem runStep_eq_pos (samp : List ℕ → ℕ → List ℕ) (ua : List Record → UAOut)
    (retrieve : String → Except String (List Record)) (acc : RunAcc)
    (hr : routeAfterCheckEnough acc.st = "need_more") :
    runStep samp ua retrieve acc =
      ⟨checkEnoughBattlesNode (computeMetaAnalyticsNode ua
          (fetchMetaBattlesNode retrieve (sampleMore5Node samp acc.st).2).2),
        acc.idxTrace ++ [(sampleMore5Node samp acc.st).1],
        acc.invTrace ++ (fetchMetaBattlesNode retrieve (sampleMore5Node samp acc.st).2).1⟩ := by
  unfold runStep
  rw [if_pos hr]

theorem runStep_eq_neg (samp : List ℕ → ℕ → List ℕ) (ua : List Record → UAOut)
    (retrieve : String → Except String (List Record)) (acc : RunAcc)
    (hr : ¬routeAfterCheckEnough acc.st = "need_more") :
    runStep samp ua retrieve acc = acc := by
  unfold runStep
  rw [if_neg hr]

theorem runInit_eq (samp : List ℕ → ℕ → List ℕ) (ua : List Record → UAOut)
    (retrieve : String → Except String (List Record)) (top : List Player) :
    runInit samp ua retrieve top =
      ⟨checkEnoughBattlesNode (computeMetaAnalyticsNode ua
          (fetchMetaBattlesNode retrieve
            (sampleInitial50Node samp (fetchTopPlayersNode top emptyMetaState)).2).2),
        [(sampleInitial50Node samp (fetchTopPlayersNode top emptyMetaState)).1],
        (fetchMetaBattlesNode retrieve
          (sampleInitial50Node samp (fetchTopPlayersNode top emptyMetaState)).2).1⟩ := rfl

theorem metaRun_inv (samp : List ℕ → ℕ → List ℕ) (ua : List Record → UAOut)
    (retrieve : String → Except String (List Record)) (top : List Player)
    (h : SampOK samp) (k : ℕ) :
    (metaRun samp ua retrieve top k).st.topPlayers = top ∧
    ((metaRun samp ua retrieve top k).idxTrace.flatten).Nodup ∧
    (∀ i ∈ (metaRun samp ua retrieve top k).idxTrace.flatten, i < top.length) ∧
    (metaRun samp ua retrieve top k).st.usedPlayerIndices =
      ((metaRun samp ua retrieve top k).idxTrace.flatten).toFinset ∧
    (metaRun samp ua retrieve top k).st.stopDecision =
      checkDecisionOf (metaRun samp ua retrieve top k).st := by
  induction k with
  | zero =>
      have h0 : metaRun samp ua retrieve top 0 = runInit samp ua retrieve top := rfl
      rw [h0, runInit_eq]
      dsimp only
      have hret := sampleInitial50_ret samp (fetchTopPlayersNode top emptyMetaState) h
      refine ⟨?_, ?_, ?_, ?_, rfl⟩
      · rw [checkNode_topPlayers, analyticsNode_topPlayers, fetchNode_topPlayers,
          sampleInitial50_topPlayers]
        rfl
      · rw [List.flatten_cons, List.flatten_nil, List.append_nil]
        exact hret.1
      · intro i hi
        rw [List.flatten_cons, List.flatten_nil, List.append_nil] at hi
        exact hret.2 i hi
      · rw [checkNode_used, analyticsNode_used, fetchNode_used, sampleInitial50_used]
        rw [List.flatten_cons, List.flatten_nil, List.append_nil]
        show (∅ : Finset ℕ) ∪ _ = _
        rw [Finset.empty_union]
  | succ n ihn =>
      obtain ⟨ih1, ih2, ih3, ih4, ih5⟩ := ihn
      have hstep : metaRun samp ua retrieve top (n + 1) =
          runStep samp ua retrieve (metaRun samp ua retrieve top n) := rfl
      by_cases hroute : routeAfterCheckEnough (metaRun samp ua retrieve top n).st = "need_more"
      · rw [hstep, runStep_eq_pos samp ua retrieve _ hroute]
        dsimp only
        have hret := sampleMore5_ret samp (metaRun samp ua retrieve top n).st h
        refine ⟨?_, ?_, ?_, ?_, rfl⟩
        · rw [checkNode_topPlayers, analyticsNode_topPlayers, fetchNode_topPlayers,
            sampleMore5_topPlayers]
          exact ih1
        · rw [List.flatten_append, List.flatten_cons, List.flatten_nil, List.append_nil]
          rw [List.nodup_append]
          refine ⟨ih2, hret.1, ?_⟩
          intro a ha hb
          have haf : a ∈ (metaRun samp ua retrieve top n).st.usedPlayerIndices := by
            rw [ih4]
            exact List.mem_toFinset.mpr ha
          have hun := (unusedIndicesOf_mem (metaRun samp ua retrieve top n).st a).mp
            (hret.2 a hb)
          exact hun.2 haf
        · intro i hi
          rw [List.flatten_append, List.flatten_cons, List.flatten_nil,
            List.append_nil, List.mem_append] at hi
          rcases hi with hi | hi
          · exact ih3 i hi
          · have hun := (unusedIndicesOf_mem (metaRun samp ua retrieve top n).st i).mp
              (hret.2 i hi)
            rw [ih1] at hun
            exact hun.1
        · rw [checkNode_used, analyticsNode_used, fetchNode_used, sampleMore5_used]
          rw [List.flatten_append, List.flatten_cons, List.flatten_nil, List.append_nil]
          rw [List.toFinset_append, ih4]
      · rw [hstep, runStep_eq_neg samp ua retrieve _ hroute]
        exact ⟨ih1, ih2, ih3, ih4, ih5⟩

/-- C3: across the initial sampling call and all incremental sampling
calls of a run, the returned index lists are pairwise disjoint, they only
contain indices of the population, the used-index set is exactly the union
of the returned index sets, and it grows monotonically step by step. -/
theorem claim3_no_duplicate_sampling (samp : List ℕ → ℕ → List ℕ)
    (ua : List Record → UAOut)
    (retrieve : String → Except String (List Record)) (top : List Player)
    (h : SampOK samp) (k : ℕ) :
    List.Pairwise List.Disjoint (metaRun samp ua retrieve top k).idxTrace ∧
    (∀ idx ∈ (metaRun samp ua retrieve top k).idxTrace, ∀ i ∈ idx, i < top.length) ∧
    (metaRun samp ua retrieve top k).st.usedPlayerIndices =
      ((metaRun samp ua retrieve top k).idxTrace.flatten).toFinset ∧
    (metaRun samp ua retrieve top k).st.usedPlayerIndices ⊆
      (metaRun samp ua retrieve top (k + 1)).st.usedPlayerIndices := by
  obtain ⟨h1, h2, h3, h4, h5⟩ := metaRun_inv samp ua retrieve top h k
  obtain ⟨g1, g2, g3, g4, g5⟩ := metaRun_inv samp ua retrieve top h (k + 1)
  refine ⟨(List.nodup_flatten.mp h2).2, ?_, h4, ?_⟩
  · intro idx hidx i hi
    exact h3 i (List.mem_flatten.mpr ⟨idx, hidx, hi⟩)
  · have hstep : metaRun samp ua retrieve top (k + 1) =
        runStep samp ua retrieve (metaRun samp ua retrieve top k) := rfl
    by_cases hroute : routeAfterCheckEnough (metaRun samp ua retrieve top k).st = "need_more"
    · rw [hstep, runStep_eq_pos samp ua retrieve _ hroute]
      dsimp only
      rw [checkNode_used, analyticsNode_used, fetchNode_used, sampleMore5_used]
      exact Finset.subset_union_left
    · rw [hstep, runStep_eq_neg samp ua retrieve _ hroute]

def uaZero : List Record → UAOut := fun _ => ⟨none, []⟩

def wTop : List Player := [⟨some "T1"⟩, ⟨some "T2"⟩, ⟨some "T3"⟩]

theorem claim3_no_duplicate_sampling_witness :
    SampOK takeSamp ∧
    (List.Pairwise List.Disjoint (metaRun takeSamp uaZero wRetrieve wTop 1).idxTrace ∧
    (∀ idx ∈ (metaRun takeSamp uaZero wRetrieve wTop 1).idxTrace,
      ∀ i ∈ idx, i < wTop.length) ∧
    (metaRun takeSamp uaZero wRetrieve wTop 1).st.usedPlayerIndices =
      ((metaRun takeSamp uaZero wRetrieve wTop 1).idxTrace.flatten).toFinset ∧
    (metaRun takeSamp uaZero wRetrieve wTop 1).st.usedPlayerIndices ⊆
      (metaRun takeSamp uaZero wRetrieve wTop 2).st.usedPlayerIndices) :=
  ⟨sampOK_take, claim3_no_duplicate_sampling takeSamp uaZero wRetrieve wTop sampOK_take 1⟩

/-! ### Bounded termination (claim C4) -/

theorem checkDecisionOf_need_more (st : MetaState)
    (h : checkDecisionOf st = "need_more") :
    0 < remainingOf st ∧ st.loopCount < 20 := by
  unfold checkDecisionOf at h
  split at h
  · exact absurd h (by decide)
  · split at h
    · exact absurd h (by decide)
    · rename_i hD
      push_neg at hD
      omega

theorem run_loopCount_zero (samp : List ℕ → ℕ → List ℕ) (ua : List Record → UAOut)
    (retrieve : String → Except String (List Record)) (top : List Player) :
    (metaRun samp ua retrieve top 0).st.loopCount = 0 := by
  have h0 : metaRun samp ua retrieve top 0 = runInit samp ua retrieve top := rfl
  rw [h0, runInit_eq]
  dsimp only
  rw [checkNode_loopCount, analyticsNode_loopCount, fetchNode_loopCount,
    sampleInitial50_loopCount]
  rfl

theorem run_need_more_unused (samp : List ℕ → ℕ → List ℕ) (ua : List Record → UAOut)
    (retrieve : String → Except String (List Record)) (top : List Player)
    (h : SampOK samp) (k : ℕ)
    (hr : routeAfterCheckEnough (metaRun samp ua retrieve top k).st = "need_more") :
    ¬(metaRun samp ua retrieve top k).st.topPlayers.isEmpty ∧
    ¬(unusedIndicesOf (metaRun samp ua retrieve top k).st).isEmpty ∧
    (metaRun samp ua retrieve top k).st.loopCount < 20 := by
  obtain ⟨h1, h2, h3, h4, h5⟩ := metaRun_inv samp ua retrieve top h k
  have hdec : (metaRun samp ua retrieve top k).st.stopDecision = "need_more" :=
    (route_eq_need_more_iff _).mp hr
  rw [h5] at hdec
  obtain ⟨hrem, hloop⟩ := checkDecisionOf_need_more _ hdec
  have htoplen : 0 < (metaRun samp ua retrieve top k).st.topPlayers.length := by
    unfold remainingOf at hrem
    omega
  refine ⟨?_, ?_, hloop⟩
  · intro hc
    rw [List.isEmpty_iff] at hc
    rw [hc] at htoplen
    simp at htoplen
  · intro hc
    rw [List.isEmpty_iff] at hc
    have hall : ∀ i < (metaRun samp ua retrieve top k).st.topPlayers.length,
        i ∈ (metaRun samp ua retrieve top k).st.usedPlayerIndices := by
      intro i hi
      by_contra hni
      have : i ∈ unusedIndicesOf (metaRun samp ua retrieve top k).st :=
        (unusedIndicesOf_mem _ i).mpr ⟨hi, hni⟩
      rw [hc] at this
      exact List.not_mem_nil i this
    have hsubrange : Finset.range (metaRun samp ua retrieve top k).st.topPlayers.length ⊆
        (metaRun samp ua retrieve top k).st.usedPlayerIndices := by
      intro i hi
      exact hall i (Finset.mem_range.mp hi)
    have hcard := Finset.card_le_card hsubrange
    rw [Finset.card_range] at hcard
    unfold remainingOf at hrem
    omega

theorem run_loopCount_incr (samp : List ℕ → ℕ → List ℕ) (ua : List Record → UAOut)
    (retrieve : String → Except String (List Record)) (top : List Player)
    (h : SampOK samp) (k : ℕ)
    (hr : routeAfterCheckEnough (metaRun samp ua retrieve top k).st = "need_more") :
    (metaRun samp ua retrieve top (k + 1)).st.loopCount =
      (metaRun samp ua retrieve top k).st.loopCount + 1 := by
  obtain ⟨hne1, hne2, hloop⟩ := run_need_more_unused samp ua retrieve top h k hr
  have hstep : metaRun samp ua retrieve top (k + 1) =
      runStep samp ua retrieve (metaRun samp ua retrieve top k) := rfl
  rw [hstep, runStep_eq_pos samp ua retrieve _ hr]
  dsimp only
  rw [checkNode_loopCount, analyticsNode_loopCount, fetchNode_loopCount,
    sampleMore5_loopCount_incr samp _ hne1 hne2]

/-- C4 (amended): each need_more cycle increments loop_count by exactly
one; when the sufficiency condition fails, the evaluation returns stop as
soon as no unused index remains or loop_count is at least MAX_LOOPS = 20;
and every run reaches a terminal decision within MAX_LOOPS + 1 = 21
evaluations (when the sufficiency condition holds at such a point the run
ends with decision enough instead of stop, which is the corrected part of
the original claim). -/
theorem claim4_bounded_termination_amended (samp : List ℕ → ℕ → List ℕ)
    (ua : List Record → UAOut)
    (retrieve : String → Except String (List Record)) (top : List Player)
    (h : SampOK samp) :
    (∀ st : MetaState,
      st.usedPlayerIndices ⊆ Finset.range st.topPlayers.length →
      ¬(resolvedGamesTotal st ≥ MIN_TOTAL_BATTLES ∧
        ∀ t ∈ REQUIRED_DECK_TYPES_LOWER,
          lookupD (deckCountsLowerOf st.metaAnalytics.deckCountsOpp) t 0 ≥
            MIN_GAMES_PER_TYPE) →
      (unusedCountOf st = 0 ∨ 20 ≤ st.loopCount) →
      (checkEnoughBattlesNode st).stopDecision = "stop") ∧
    (∀ k, routeAfterCheckEnough (metaRun samp ua retrieve top k).st = "need_more" →
      (metaRun samp ua retrieve top (k + 1)).st.loopCount =
        (metaRun samp ua retrieve top k).st.loopCount + 1) ∧
    (∃ k, k ≤ 20 ∧
      routeAfterCheckEnough (metaRun samp ua retrieve top k).st ≠ "need_more") := by
  refine ⟨?_, ?_, ?_⟩
  · intro st hsub hne hD
    rw [checkNode_stopDecision]
    unfold checkDecisionOf
    have hcond1 : ¬(resolvedGamesTotal st ≥ MIN_TOTAL_BATTLES ∧
        (insufficientTypesOf st).length = 0) := fun hc =>
      hne ⟨hc.1, (insufficientTypes_len_zero_iff st).mp hc.2⟩
    have hcond2 : remainingOf st ≤ 0 ∨ st.loopCount ≥ 20 := by
      rcases hD with hD | hD
      · rw [unusedCount_eq_remaining st hsub] at hD
        omega
      · exact Or.inr hD
    rw [if_neg hcond1, if_pos hcond2]
  · intro k hr
    exact run_loopCount_incr samp ua retrieve top h k hr
  · by_contra hcon
    push_neg at hcon
    have hl : ∀ j, j ≤ 20 → (metaRun samp ua retrieve top j).st.loopCount = j := by
      intro j
      induction j with
      | zero =>
          intro _
          exact run_loopCount_zero samp ua retrieve top
      | succ n ihn =>
          intro hle
          rw [run_loopCount_incr samp ua retrieve top h n (hcon n (by omega)),
            ihn (by omega)]
    have h20 := hcon 20 (le_refl 20)
    obtain ⟨hx1, hx2, hlt⟩ := run_need_more_unused samp ua retrieve top h 20 h20
    rw [hl 20 (le_refl 20)] at hlt
    omega

theorem claim4_bounded_termination_amended_witness :
    SampOK takeSamp ∧
    ((∀ st : MetaState,
      st.usedPlayerIndices ⊆ Finset.range st.topPlayers.length →
      ¬(resolvedGamesTotal st ≥ MIN_TOTAL_BATTLES ∧
        ∀ t ∈ REQUIRED_DECK_TYPES_LOWER,
          lookupD (deckCountsLowerOf st.metaAnalytics.deckCountsOpp) t 0 ≥
            MIN_GAMES_PER_TYPE) →
      (unusedCountOf st = 0 ∨ 20 ≤ st.loopCount) →
      (checkEnoughBattlesNode st).stopDecision = "stop") ∧
    (∀ k, routeAfterCheckEnough (metaRun takeSamp uaZero wRetrieve wTop k).st = "need_more" →
      (metaRun takeSamp uaZero wRetrieve wTop (k + 1)).st.loopCount =
        (metaRun takeSamp uaZero wRetrieve wTop k).st.loopCount + 1) ∧
    (∃ k, k ≤ 20 ∧
      routeAfterCheckEnough (metaRun takeSamp uaZero wRetrieve wTop k).st ≠ "need_more")) :=
  ⟨sampOK_take,
    claim4_bounded_termination_amended takeSamp uaZero wRetrieve wTop sampOK_take⟩

def c4DeckCounts : List (String × Int) :=
  [("siege", 50), ("bait", 50), ("cycle", 50), ("bridge spam", 50), ("beatdown", 50)]

def c4State : MetaState :=
  { emptyMetaState with
    topPlayers := [⟨some "T1"⟩],
    loopCount := 20,
    metaAnalytics := ⟨some 500, c4DeckCounts, []⟩ }

/-- C4 counterexample to the claim as stated: in a state with
loop_count = 20 whose data meets every threshold, the evaluation returns
enough, not stop, even though loop_count >= MAX_LOOPS holds. -/
theorem claim4_counterexample :
    20 ≤ c4State.loopCount ∧
    (checkEnoughBattlesNode c4State).stopDecision = "enough" ∧
    (checkEnoughBattlesNode c4State).stopDecision ≠ "stop" := by
  refine ⟨by decide, by decide, by decide⟩

/-! ### At-most-once retrieval (claim C6) -/

theorem fetchNode_invoked_sublist (retrieve : String → Except String (List Record))
    (st : MetaState) :
    List.Sublist (fetchMetaBattlesNode retrieve st).1
      (st.selectedPlayers.filterMap Player.tag) := by
  unfold fetchMetaBattlesNode
  split
  · exact List.nil_sublist _
  · obtain ⟨extra, hex, hsub⟩ := fold_invoked_sublist retrieve st.selectedPlayers
      ⟨st.metaRawBattles, st.fetchedPlayerTags, st.notes, 0, 0, []⟩
    show (st.selectedPlayers.foldl (processPlayer retrieve)
      ⟨st.metaRawBattles, st.fetchedPlayerTags, st.notes, 0, 0, []⟩).invoked.Sublist _
    rw [hex]
    simpa using hsub

theorem filterMap_tagAt_range (top : List Player) :
    (List.range top.length).filterMap (fun i => (top.getD i ⟨none⟩).tag) =
      top.filterMap Player.tag := by
  induction top with
  | nil => rfl
  | cons p rest ih =>
      show (List.range (rest.length + 1)).filterMap
        (fun i => ((p :: rest).getD i ⟨none⟩).tag) = _
      rw [List.range_succ_eq_map, List.filterMap_cons, List.filterMap_map]
      have hcomp : ((fun i => ((p :: rest).getD i ⟨none⟩).tag) ∘ Nat.succ) =
          (fun i => (rest.getD i ⟨none⟩).tag) := rfl
      rw [hcomp, ih, List.filterMap_cons]
      rfl

theorem invTrace_sublist (samp : List ℕ → ℕ → List ℕ) (ua : List Record → UAOut)
    (retrieve : String → Except String (List Record)) (top : List Player)
    (h : SampOK samp) (k : ℕ) :
    List.Sublist (metaRun samp ua retrieve top k).invTrace
      (((metaRun samp ua retrieve top k).idxTrace.flatten).filterMap
        (fun i => (top.getD i ⟨none⟩).tag)) := by
  induction k with
  | zero =>
      have h0 : metaRun samp ua retrieve top 0 = runInit samp ua retrieve top := rfl
      rw [h0, runInit_eq]
      dsimp only
      rw [List.flatten_cons, List.flatten_nil, List.append_nil]
      have hsub := fetchNode_invoked_sublist retrieve
        (sampleInitial50Node samp (fetchTopPlayersNode top emptyMetaState)).2
      rw [sampleInitial50_selected, List.filterMap_map] at hsub
      exact hsub
  | succ n ihn =>
      have hstep : metaRun samp ua retrieve top (n + 1) =
          runStep samp ua retrieve (metaRun samp ua retrieve top n) := rfl
      by_cases hroute :
          routeAfterCheckEnough (metaRun samp ua retrieve top n).st = "need_more"
      · rw [hstep, runStep_eq_pos samp ua retrieve _ hroute]
        dsimp only
        rw [List.flatten_append, List.flatten_cons, List.flatten_nil, List.append_nil,
          List.filterMap_append]
        refine List.Sublist.append ihn ?_
        have hsub := fetchNode_invoked_sublist retrieve
          (sampleMore5Node samp (metaRun samp ua retrieve top n).st).2
        rw [sampleMore5_selected, List.filterMap_map] at hsub
        have htop := (metaRun_inv samp ua retrieve top h n).1
        rw [htop] at hsub
        exact hsub
      · rw [hstep, runStep_eq_neg samp ua retrieve _ hroute]
        exact ihn

theorem subperm_filterMap (f : ℕ → Option String) (l₁ l₂ : List ℕ)
    (h : List.Subperm l₁ l₂) :
    List.Subperm (l₁.filterMap f) (l₂.filterMap f) := by
  obtain ⟨l, hperm, hsub⟩ := h
  exact ⟨l.filterMap f, hperm.filterMap f, hsub.filterMap f⟩

/-- C6: per fetch iteration, a tag in the fetched set is skipped without a
retrieval call and a tag enters the set exactly when its retrieval and
normalization succeed; and across a whole run with duplicate-free
population tags, the retrieval oracle is called at most once per tag. -/
theorem claim6_at_most_once_retrieval (samp : List ℕ → ℕ → List ℕ)
    (ua : List Record → UAOut)
    (retrieve : String → Except String (List Record)) (top : List Player)
    (h : SampOK samp) (htags : (top.filterMap Player.tag).Nodup)
    (k : ℕ) (tag : String) :
    (∀ (acc : FetchAcc) (p : Player) (t : String), p.tag = some t → t ≠ "" →
      t ∈ acc.fetched → processPlayer retrieve acc p = acc) ∧
    (∀ (acc : FetchAcc) (p : Player) (x : String),
      x ∈ (processPlayer retrieve acc p).fetched ↔
        (x ∈ acc.fetched ∨ (p.tag = some x ∧ x ≠ "" ∧ x ∉ acc.fetched ∧
          ∃ l, retrieve x = Except.ok l))) ∧
    List.count tag (metaRun samp ua retrieve top k).invTrace ≤ 1 := by
  refine ⟨fun acc p t => (processPlayer_fetch_guard retrieve acc p).1 t,
    fun acc p => (processPlayer_fetch_guard retrieve acc p).2, ?_⟩
  obtain ⟨h1, h2, h3, h4, h5⟩ := metaRun_inv samp ua retrieve top h k
  have hsubl := invTrace_sublist samp ua retrieve top h k
  have hsp : List.Subperm ((metaRun samp ua retrieve top k).idxTrace.flatten)
      (List.range top.length) :=
    List.Nodup.subperm h2 (fun i hi => List.mem_range.mpr (h3 i hi))
  have hsp2 := subperm_filterMap (fun i => (top.getD i ⟨none⟩).tag) _ _ hsp
  rw [filterMap_tagAt_range] at hsp2
  calc List.count tag (metaRun samp ua retrieve top k).invTrace
      ≤ List.count tag (((metaRun samp ua retrieve top k).idxTrace.flatten).filterMap
          (fun i => (top.getD i ⟨none⟩).tag)) := hsubl.count_le tag
    _ ≤ List.count tag (top.filterMap Player.tag) := hsp2.count_le tag
    _ ≤ 1 := (List.nodup_iff_count_le_one.mp htags) tag

theorem claim6_at_most_once_retrieval_witness :
    SampOK takeSamp ∧ (wTop.filterMap Player.tag).Nodup ∧
    ((∀ (acc : FetchAcc) (p : Player) (t : String), p.tag = some t → t ≠ "" →
      t ∈ acc.fetched → processPlayer wRetrieve acc p = acc) ∧
    (∀ (acc : FetchAcc) (p : Player) (x : String),
      x ∈ (processPlayer wRetrieve acc p).fetched ↔
        (x ∈ acc.fetched ∨ (p.tag = some x ∧ x ≠ "" ∧ x ∉ acc.fetched ∧
          ∃ l, wRetrieve x = Except.ok l))) ∧
    List.count "T1" (metaRun takeSamp uaZero wRetrieve wTop 2).invTrace ≤ 1) :=
  ⟨sampOK_take, by decide,
    claim6_at_most_once_retrieval takeSamp uaZero wRetrieve wTop sampOK_take
      (by decide) 2 "T1"⟩
